import Mathlib

/-!
A shallow embedding of the editing core of `vim_rs` (src/text.rs, src/task.rs,
src/command.rs, src/mode.rs, src/main.rs) together with proofs about it.

Modelling conventions:
* Rust `String` is modelled as `List Char` (the repository treats lines as
  ASCII: byte indices and character indices coincide there).
* Rust `usize` is modelled as `Nat`; where the source can underflow a `usize`
  subtraction we model the release-profile two's-complement wrap explicitly
  with `wrapSub` (wrap at `2 ^ 64`).  Guarded subtractions (preceded by a
  positivity test in the source) are modelled with truncated subtraction,
  which agrees with the source on the guarded branch.
* A Rust panic (out-of-bounds index or slice, failed `assert!`,
  `unwrap` on `None`, `unreachable!`, `unimplemented!`/`todo!`) is modelled
  by returning `none`; fallible operations therefore live in `Option`.
* `Vec` push/pop act on the end of the vector; we model a stack vector as a
  Lean list whose HEAD is the TOP of the stack (the end of the `Vec`).
* Terminal I/O (escape sequences written to `out`, `set_cursor_style`,
  rendering) has no effect on the editor state and is not modelled; the one
  file write (`flush_to_disk`) is modelled by returning the string that the
  source hands to `fs::write`.
-/

namespace Vim

/-- Wrapping `usize` subtraction (release-profile semantics) for operands
below `2 ^ 64`. -/
def wrapSub (a b : Nat) : Nat :=
  if b ≤ a then a - b else 2 ^ 64 - (b - a)

/-- Document/screen coordinate pair, from `main.rs` (`struct Coordinates`). -/
structure Coordinates where
  x : Nat
  y : Nat
deriving Repr, DecidableEq

/-- The subset of `termion::event::Key` the editor matches on. -/
inductive Key where
  | Char : Char → Key
  | Ctrl : Char → Key
  | Backspace : Key
  | Left : Key
  | Right : Key
  | Up : Key
  | Down : Key
  | Esc : Key
  | Delete : Key
deriving Repr, DecidableEq

/-- Mode from `mode.rs` (the enum there has no `Search` variant, although
`main.rs` mentions one; we model the enum as declared in `mode.rs`). -/
inductive Mode where
  | Normal | Visual | Insert | Command | Exit
deriving Repr, DecidableEq

/-- A line of text: Rust `String`, ASCII assumed (see module comment). -/
abbrev Line := List Char

/-- Text from `text.rs`: the document as a vector of lines. -/
structure Text where
  lines : List Line
deriving Repr, DecidableEq

namespace Text

/-- Rust `Text::new` — note the source builds an EMPTY vector of lines. -/
def new : Text := ⟨[]⟩

/-- Rust `Text::len`. -/
def len (t : Text) : Nat := t.lines.length

/-- Rust `Text::char_at`: the `'\0'` sentinel for out-of-range positions,
otherwise the character at (line `x`, column `y`). -/
def char_at (t : Text) (x y : Nat) : Char :=
  if h : x < t.lines.length then
    let line := t.lines.get ⟨x, h⟩
    if line.length = 0 ∨ line.length ≤ y then Char.ofNat 0
    else line.getD y (Char.ofNat 0)
  else Char.ofNat 0

/-- Rust `Text::insert_at`: clamp the line index to the last line, clamp the
column to the line length, splice the character in.  Panics (`none`) when
the buffer is empty (`lines.len() - 1` wraps and the line index is out of
range). -/
def insert_at (t : Text) (x y : Nat) (c : Char) : Option Text :=
  let x := min x (wrapSub t.lines.length 1)
  match t.lines[x]? with
  | none => none
  | some line =>
    let y := min y line.length
    some ⟨t.lines.set x (line.take y ++ c :: line.drop y)⟩

/-- Rust `Text::delete_line_at`: clamp the index to the last line and remove that
line, returning it.  Panics (`none`) on an empty buffer (`Vec::remove` out
of bounds). -/
def delete_line_at (t : Text) (x : Nat) : Option (Line × Text) :=
  let x := min x (wrapSub t.lines.length 1)
  match t.lines[x]? with
  | none => none
  | some line => some (line, ⟨t.lines.take x ++ t.lines.drop (x + 1)⟩)

/-- Rust `Text::append_str_at`: clamp line and column, splice a string in. -/
def append_str_at (t : Text) (x y : Nat) (s : Line) : Option Text :=
  let x := min x (wrapSub t.lines.length 1)
  match t.lines[x]? with
  | none => none
  | some line =>
    let y := min y line.length
    some ⟨t.lines.set x (line.take y ++ s ++ line.drop y)⟩

/-- Rust `Text::delete_at`: clamp line and column, step the column back by one
with a WRAPPING `usize` subtraction (`0.max(y - 1)` in the source), and
remove that character if the line is non-empty.  The wrap makes the removal
panic (`none`) when the clamped column is `0` and the line is non-empty. -/
def delete_at (t : Text) (x y : Nat) : Option (Option Char × Text) :=
  let x := min x (wrapSub t.lines.length 1)
  match t.lines[x]? with
  | none => none
  | some line =>
    let y := min y line.length
    let y := max 0 (wrapSub y 1)
    if line.length > 0 then
      if h : y < line.length then
        some (some (line.get ⟨y, h⟩), ⟨t.lines.set x (line.take y ++ line.drop (y + 1))⟩)
      else none
    else some (none, t)

/-- Rust `Text::len_of_line_at` (read accessor; on an empty buffer the source
would panic — we return 0 there, and every theorem that uses it assumes a
non-empty buffer). -/
def len_of_line_at (t : Text) (line : Nat) : Nat :=
  ((t.lines.getD (min line (t.lines.length - 1)) [])).length

/-- Rust `Text::line_at`: empty string for an out-of-range index. -/
def line_at (t : Text) (line : Nat) : Line :=
  if line < t.lines.length then t.lines.getD line [] else []

/-- Rust `Text::push_line`. -/
def push_line (t : Text) (content : Line) : Text :=
  ⟨t.lines ++ [content]⟩

/-- Rust `Text::add_line_before`: append when the index is past the end,
otherwise insert before `idx`. -/
def add_line_before (t : Text) (idx : Nat) (content : Line) : Text :=
  if t.lines.length < idx then t.push_line content
  else ⟨t.lines.take idx ++ content :: t.lines.drop idx⟩

/-- Rust `Text::new_line_at`: split line `x` at `index`; the tail becomes a new
line right after.  Panics (`none`) on an empty buffer. -/
def new_line_at (t : Text) (x index : Nat) : Option Text :=
  let x := min x (wrapSub t.lines.length 1)
  match t.lines[x]? with
  | none => none
  | some line =>
    let index := min index line.length
    let t' : Text := ⟨t.lines.set x (line.take index)⟩
    some (t'.add_line_before (x + 1) (line.drop index))

/-- The interior-line loop of `Text::delete_range`:
`for i in (start.x + 1..end.x).rev()` — deletes lines
`sx + m, sx + m - 1, …, sx + 1` in that order (where `m` is the number of
interior lines) and accumulates each deleted line followed by `'\n'`. -/
def delInterior (t : Text) (sx : Nat) : Nat → Option (Line × Text)
  | 0 => some ([], t)
  | m + 1 =>
    match t.delete_line_at (sx + (m + 1)) with
    | none => none
    | some (line, t') =>
      match delInterior t' sx m with
      | none => none
      | some (rest, t'') => some (line ++ '\n' :: rest, t'')

/-- Rust `Text::delete_range`: inclusive span deletion between two document
coordinates.  `assert!` failures and out-of-range slices are panics
(`none`).  If the prefix before `start` and the suffix after `end` are both
empty, the surviving line itself is removed and a trailing `'\n'` is added
to the returned text (the documented quirk). -/
def delete_range (t : Text) (start fin : Coordinates) : Option (Line × Text) :=
  if start.x = fin.x then
    if start.y ≤ fin.y then
      match t.lines[start.x]? with
      | none => none
      | some text =>
        if fin.y + 1 ≤ text.length then
          let former := text.take start.y
          let latter := text.drop (fin.y + 1)
          let deleted := (text.take (fin.y + 1)).drop start.y
          if former.length = 0 ∧ latter.length = 0 then
            match Text.delete_line_at ⟨t.lines⟩ start.x with
            | none => none
            | some (_, t') => some (deleted ++ ['\n'], t')
          else
            some (deleted, ⟨t.lines.set start.x (former ++ latter)⟩)
        else none
    else none
  else
    if start.x < fin.x then
      match delInterior t start.x (fin.x - start.x - 1) with
      | none => none
      | some (deleted₀, t₁) =>
        match t₁.lines[start.x]?, t₁.lines[start.x + 1]? with
        | some first, some last =>
          if start.y ≤ first.length ∧ fin.y + 1 ≤ last.length then
            let former := first.take start.y
            let latter := last.drop (fin.y + 1)
            let deleted := deleted₀ ++ first.drop start.y ++ '\n' :: last.take (fin.y + 1)
            match t₁.delete_line_at (start.x + 1) with
            | none => none
            | some (_, t₂) =>
              if former.length = 0 ∧ latter.length = 0 then
                match t₂.delete_line_at start.x with
                | none => none
                | some (_, t₃) => some (deleted ++ ['\n'], t₃)
              else
                some (deleted, ⟨t₂.lines.set start.x (former ++ latter)⟩)
          else none
        | _, _ => none
    else none

end Text

/-- The spec's round-trip re-insertion (§8 of the spec: re-inserting the
returned deleted text at the start coordinate, newlines re-splitting
lines).  A character is spliced in with `insert_at` and the column
advances; `'\n'` splits the line with `new_line_at` and the position moves
to the start of the following line — exactly what the editor's own replay
(`append_char_at_cur`) does to the buffer. -/
def reinsert (t : Text) (x y : Nat) : Line → Option Text
  | [] => some t
  | c :: cs =>
    if c = '\n' then
      match t.new_line_at x y with
      | none => none
      | some t' => reinsert t' (x + 1) 0 cs
    else
      match t.insert_at x y c with
      | none => none
      | some t' => reinsert t' x (y + 1) cs

/-- Action enum from `command.rs`. -/
inductive Action where
  | Insert | Delete
deriving Repr, DecidableEq

/-- CmdAction from `command.rs`. -/
structure CmdAction where
  action : Action
  pos : Coordinates
  cur_line : Nat
  contents : List Key
deriving Repr, DecidableEq

/-- ActionStack from `command.rs`: head of each list = top of the Rust
`Vec` stack. -/
structure ActionStack where
  backward_stack : List CmdAction
  forward_stack : List CmdAction
deriving Repr, DecidableEq

namespace ActionStack

/-- Rust `ActionStack::forward`: pop the forward stack; on success push the
popped action onto the backward stack and return it. -/
def forward (s : ActionStack) : Option CmdAction × ActionStack :=
  match s.forward_stack with
  | [] => (none, s)
  | a :: rest => (some a, ⟨a :: s.backward_stack, rest⟩)

/-- Rust `ActionStack::backward`: pop the backward stack; on success push the
popped action onto the forward stack and return it. -/
def backward (s : ActionStack) : Option CmdAction × ActionStack :=
  match s.backward_stack with
  | [] => (none, s)
  | a :: rest => (some a, ⟨rest, a :: s.forward_stack⟩)

/-- Rust `ActionStack::discard_key_on_top` — panics (`none`) on an empty
backward stack (`len() - 1` wraps). -/
def discard_key_on_top (s : ActionStack) : Option ActionStack :=
  match s.backward_stack with
  | [] => none
  | a :: rest => some ⟨{ a with contents := a.contents.dropLast } :: rest, s.forward_stack⟩

/-- Rust `ActionStack::append_key_to_top` — panics (`none`) on an empty backward
stack. -/
def append_key_to_top (s : ActionStack) (key : Key) : Option ActionStack :=
  match s.backward_stack with
  | [] => none
  | a :: rest => some ⟨{ a with contents := a.contents ++ [key] } :: rest, s.forward_stack⟩

/-- Rust `ActionStack::append_string_to_top`. -/
def append_string_to_top (s : ActionStack) (str : Line) : Option ActionStack :=
  match str with
  | [] => some s
  | c :: cs =>
    match s.append_key_to_top (Key.Char c) with
    | none => none
    | some s' => append_string_to_top s' cs

/-- Rust `ActionStack::add_action`: push a fresh entry (empty contents) onto the
backward stack.  The forward stack is not touched. -/
def add_action (s : ActionStack) (action : Action) (cur_line : Nat) (pos : Coordinates) :
    ActionStack :=
  ⟨{ action := action, cur_line := cur_line, pos := pos, contents := [] } :: s.backward_stack,
    s.forward_stack⟩

end ActionStack

/-- Task from `task.rs`: the pending key accumulator (`Vec<Key>`, pushed at
the end). -/
structure Task where
  tasks : List Key
deriving Repr, DecidableEq

namespace Task

/-- MOVEMENT key table from `task.rs`. -/
def MOVEMENT : List Key :=
  [Key.Char 'j', Key.Char 'k', Key.Char 'h', Key.Char 'l',
   Key.Char 'e', Key.Char 'w', Key.Char 'b',
   Key.Char ' ', Key.Backspace,
   Key.Left, Key.Right, Key.Down, Key.Up]

/-- Rust `Task::push`. -/
def push (t : Task) (key : Key) : Task := ⟨t.tasks ++ [key]⟩

/-- Rust `Task::len`. -/
def len (t : Task) : Nat := t.tasks.length

/-- Rust `Task::last_task`. -/
def last_task (t : Task) : Option Key := t.tasks.getLast?

/-- Character content walked by `Task::iter` (the characters of the
`Key::Char` entries, in order). -/
def charsOf (t : Task) : List Char :=
  t.tasks.filterMap (fun k => match k with | Key.Char c => some c | _ => none)

/-- Rust `Task::has_num` (Rust `char::is_numeric`, modelled by
`Char.isDigit`; the two agree on ASCII). -/
def has_num (t : Task) : Bool := t.charsOf.any Char.isDigit

/-- Rust `Task::num`: collect the numeric characters and parse them base 10
(`usize::from_str_radix`; parse failure — overflow past `2 ^ 64` — gives
`none`). -/
def num (t : Task) : Option Nat :=
  if t.has_num then
    let s := t.charsOf.filter Char.isDigit
    let v := s.foldl (fun a c => a * 10 + (c.toNat - 48)) 0
    if v < 2 ^ 64 then some v else none
  else none

/-- Rust `Task::clear`. -/
def clear (_ : Task) : Task := ⟨[]⟩

/-- Rust `Task::is_movement`: the last accumulated key is in MOVEMENT. -/
def is_movement (t : Task) : Bool :=
  match t.last_task with
  | some key => MOVEMENT.contains key
  | none => false

/-- Modelled from the spec: `Task::last_two_task` is called by
`TextEditor::try_perform_task` but is absent from src/task.rs.  Spec
section 4.4: compound two-key commands are recognized by inspecting the
last two accumulated keys; we render the last two keys as a two-character
string when both are character keys. -/
def last_two_task (t : Task) : Option (List Char) :=
  match t.tasks.reverse with
  | Key.Char b :: Key.Char a :: _ => some [a, b]
  | _ => none

end Task

/-- CharacterView from `main.rs`; the source field name `end` is a Lean
keyword, rendered here as `fin`. -/
structure CharacterView where
  start : Coordinates
  fin : Coordinates
deriving Repr, DecidableEq

/-- LineView from `main.rs` (`end` rendered as `fin`). -/
structure LineView where
  start : Nat
  fin : Nat
deriving Repr, DecidableEq

/-- SelectView from `main.rs`. -/
inductive SelectView where
  | CharacterView : CharacterView → SelectView
  | LineView : LineView → SelectView
  | BlockView : CharacterView → SelectView
  | None : SelectView
deriving Repr, DecidableEq

/-- TextView from `main.rs`: the viewport window. -/
structure TextView where
  lower_line : Nat
  upper_line : Nat
deriving Repr, DecidableEq

namespace TextView

/-- Rust `TextView::move_down`. -/
def move_down (v : TextView) (n : Nat) : TextView :=
  ⟨v.lower_line + n, v.upper_line + n⟩

/-- Rust `TextView::move_up`. -/
def move_up (v : TextView) (n : Nat) : TextView :=
  if v.upper_line = 0 then v
  else if v.lower_line < n then ⟨0, v.upper_line - v.lower_line⟩
  else ⟨v.lower_line - n, v.upper_line - n⟩

/-- Rust `TextView::shrink_upper`. -/
def shrink_upper (v : TextView) : TextView :=
  if 0 < v.upper_line then ⟨v.lower_line, v.upper_line - 1⟩ else v

/-- Rust `TextView::expand_upper`. -/
def expand_upper (v : TextView) : TextView :=
  ⟨v.lower_line, v.upper_line + 1⟩

end TextView

/-- Size from `main.rs` (`Size(u16, u16)`): `w` is field `.0` (columns), `h`
is field `.1` (rows). -/
structure Size where
  w : Nat
  h : Nat
deriving Repr, DecidableEq

/-- TextEditor from `main.rs`, restricted to the state the editing core
reads or writes.  Omitted source fields: `out` (terminal handle — writes to
it do not affect core state), `highlighter` and `dialogs` (rendering),
`saved_pos` (used only by the rendering routine `flush`), `file_name`
(opaque path handed to `fs::write`). -/
structure Editor where
  text : Text
  bar_text : Text
  cur_pos : Coordinates
  cur_line : Nat
  view : TextView
  select_view : SelectView
  terminal_size : Size
  mode : Mode
  task : Task
  action_stack : ActionStack
  processing_action : Bool
  processing_task : Bool
  repeating_action : Bool
deriving Repr, DecidableEq

namespace Editor

/-- Rust `TextEditor::text_length`. -/
def text_length (e : Editor) : Nat := e.text.len

/-- Rust `TextEditor::max_y` (`terminal_size.1 - 1`; the terminal height is
always at least 1, so the `u16` subtraction cannot underflow). -/
def max_y (e : Editor) : Nat := e.terminal_size.h - 1

/-- Rust `TextEditor::len_of_line_at`: mode-dependent logical line length.
The `unimplemented!()` arm (Exit mode) is modelled as 0; no theorem
evaluates it. -/
def len_of_line_at (e : Editor) (line : Nat) : Nat :=
  if e.mode = Mode.Normal ∨ e.mode = Mode.Visual ∨ e.mode = Mode.Command then
    max 1 (e.text.len_of_line_at line)
  else if e.mode = Mode.Insert then
    max 1 (e.text.len_of_line_at line + 1)
  else 0

/-- Rust `TextEditor::len_of_cur_line` (the source `assert!(cur_line != 0)`
holds in every state our theorems touch). -/
def len_of_cur_line (e : Editor) : Nat := e.len_of_line_at (e.cur_line - 1)

/-- Rust `TextEditor::cur_char`. -/
def cur_char (e : Editor) : Char := e.text.char_at (e.cur_line - 1) (e.cur_pos.x - 1)

/-- Rust `TextEditor::is_alphabet` (Rust `char::is_alphanumeric`, modelled
by `Char.isAlphanum`; the two agree on ASCII). -/
def is_alphabet (c : Char) : Bool := c.isAlphanum

/-- Rust `TextEditor::is_blank`. -/
def is_blank (c : Char) : Bool := c = ' ' ∨ c = '\n' ∨ c = '\t'

/-- Rust `TextEditor::set_pos` (`update_pos` only writes a cursor escape
sequence to the terminal). -/
def set_pos (e : Editor) (x y : Nat) : Editor :=
  { e with cur_pos := ⟨x, y⟩ }

/-- Rust `TextEditor::set_cur_line`. -/
def set_cur_line (e : Editor) (line : Nat) : Editor :=
  { e with cur_line := line }

/-- Rust `TextEditor::move_to_end_of_line`. -/
def move_to_end_of_line (e : Editor) : Editor :=
  { e with cur_pos := { e.cur_pos with x := e.len_of_cur_line } }

/-- Rust `TextEditor::move_to_start_of_line`. -/
def move_to_start_of_line (e : Editor) : Editor :=
  { e with cur_pos := { e.cur_pos with x := 1 } }

/-- Loop body of `TextEditor::move_to_first_char_of_line`: while the column
is short of the line length and the current character is blank, advance.
The fuel is the loop bound computed at the call site; since each step
increases `x` by one toward the fixed line length, a fuel of
`len_of_cur_line` is enough for the loop to run to completion. -/
def firstCharLoop : Nat → Editor → Editor
  | 0, e => e
  | f + 1, e =>
    if e.cur_pos.x < e.len_of_cur_line then
      if is_blank e.cur_char then
        firstCharLoop f { e with cur_pos := { e.cur_pos with x := e.cur_pos.x + 1 } }
      else e
    else e

/-- Rust `TextEditor::move_to_first_char_of_line`. -/
def move_to_first_char_of_line (e : Editor) : Editor :=
  let e := { e with cur_pos := { e.cur_pos with x := 1 } }
  firstCharLoop e.len_of_cur_line e

/-- Rust `TextEditor::inc_x`. -/
def inc_x (e : Editor) : Editor :=
  if e.cur_pos.x < e.len_of_cur_line then
    { e with cur_pos := { e.cur_pos with x := e.cur_pos.x + 1 } }
  else e

/-- Rust `TextEditor::dec_x`. -/
def dec_x (e : Editor) : Editor :=
  if 1 < e.cur_pos.x then
    { e with cur_pos := { e.cur_pos with x := e.cur_pos.x - 1 } }
  else e

/-- Rust `TextEditor::inc_y` (`text_length() as u16` truncates modulo
`2 ^ 16`). -/
def inc_y (e : Editor) : Editor :=
  let e :=
    if e.cur_pos.y < min e.max_y (e.text_length % 2 ^ 16) then
      { e with cur_pos := { e.cur_pos with y := e.cur_pos.y + 1 } }
    else if e.view.upper_line < e.text_length then
      { e with view := e.view.move_down 1 }
    else e
  if e.cur_line < e.text_length then { e with cur_line := e.cur_line + 1 } else e

/-- Rust `TextEditor::dec_y`. -/
def dec_y (e : Editor) : Editor :=
  let e :=
    if 1 < e.cur_pos.y then
      { e with cur_pos := { e.cur_pos with y := e.cur_pos.y - 1 } }
    else
      { e with view := e.view.move_up 1 }
  if 1 < e.cur_line then { e with cur_line := e.cur_line - 1 } else e

/-- Rust `TextEditor::backward_to_next_char`: step one character backward,
wrapping to the end of the previous line; reports `false` (no movement) at
the very start of the document. -/
def backward_to_next_char (e : Editor) : Editor × Bool :=
  if e.cur_pos.x = 1 then
    if 1 < e.cur_line then
      let e :=
        if 1 < e.cur_pos.y then
          { e with cur_pos := { e.cur_pos with y := e.cur_pos.y - 1 } }
        else
          { e with view := e.view.move_up 1 }
      let e := { e with cur_line := e.cur_line - 1 }
      ({ e with cur_pos := { e.cur_pos with x := e.len_of_cur_line } }, true)
    else (e, false)
  else ({ e with cur_pos := { e.cur_pos with x := e.cur_pos.x - 1 } }, true)

/-- Rust `TextEditor::forward_to_next_char`: step one character forward,
wrapping to the start of the next line; reports `false` (no movement) at
the very end of the document. -/
def forward_to_next_char (e : Editor) : Editor × Bool :=
  if e.cur_pos.x = e.len_of_cur_line then
    if e.cur_line < e.text_length then
      let e :=
        if e.cur_pos.y < e.max_y then
          { e with cur_pos := { e.cur_pos with y := e.cur_pos.y + 1 } }
        else if e.view.upper_line < e.text_length then
          { e with view := e.view.move_down 1 }
        else e
      let e := { e with cur_line := e.cur_line + 1 }
      ({ e with cur_pos := { e.cur_pos with x := 1 } }, true)
    else (e, false)
  else ({ e with cur_pos := { e.cur_pos with x := e.cur_pos.x + 1 } }, true)

end Editor

namespace Editor

/-- Rust `TextEditor::new_line_ahead`: insert an empty line before the
screen row (`cur_pos.y - 1`), go to column 1, and grow the viewport if the
document still fits on one screen. -/
def new_line_ahead (e : Editor) : Editor :=
  let e := { e with text := e.text.add_line_before (e.cur_pos.y - 1) [] }
  let e := e.move_to_start_of_line
  if e.text_length < e.terminal_size.h - 1 then { e with view := e.view.expand_upper }
  else e

/-- Rust `TextEditor::new_line_behind`: split at the end of the screen row,
then move down to the new line's start. -/
def new_line_behind (e : Editor) : Option Editor :=
  match e.text.new_line_at (e.cur_pos.y - 1) e.len_of_cur_line with
  | none => none
  | some t =>
    let e := { e with text := t }
    let e := e.inc_y
    let e := e.move_to_start_of_line
    some (if e.text_length < e.terminal_size.h - 1 then { e with view := e.view.expand_upper }
          else e)

/-- Rust `TextEditor::new_line`: split the screen row at the cursor column,
then move down to the new line's start. -/
def new_line (e : Editor) : Option Editor :=
  match e.text.new_line_at (e.cur_pos.y - 1) (e.cur_pos.x - 1) with
  | none => none
  | some t =>
    let e := { e with text := t }
    let e := e.inc_y
    let e := e.move_to_start_of_line
    some (if e.text_length < e.terminal_size.h - 1 then { e with view := e.view.expand_upper }
          else e)

/-- Rust `TextEditor::delete_line_at`: delete a buffer line, shrink the
viewport if the document now fits on one screen, return the removed
content. -/
def delete_line_at (e : Editor) (index : Nat) : Option (Line × Editor) :=
  match e.text.delete_line_at index with
  | none => none
  | some (res, t) =>
    let e := { e with text := t }
    some (res, if e.text_length < e.terminal_size.h - 1 then
                 { e with view := e.view.shrink_upper }
               else e)

/-- Rust `TextEditor::delete_cur_line`. -/
def delete_cur_line (e : Editor) : Option (Line × Editor) :=
  match e.text.delete_line_at (e.cur_line - 1) with
  | none => none
  | some (res, t) =>
    let e := { e with text := t }
    some (res, if e.text_length < e.terminal_size.h - 1 then
                 { e with view := e.view.shrink_upper }
               else e)

/-- Rust `TextEditor::delete_cur_char`: on the `'\0'` sentinel (empty line
or past end) join the following line into this one (when there is one) and
return `none`; otherwise remove the character just before the cursor
column via `Text::delete_at`. -/
def delete_cur_char (e : Editor) : Option (Option Char × Editor) :=
  if e.cur_char = Char.ofNat 0 then
    if e.cur_line < e.text_length then
      match e.delete_line_at e.cur_line with
      | none => none
      | some (contents, e₁) =>
        match e₁.text.append_str_at (e₁.cur_line - 1) e₁.len_of_cur_line contents with
        | none => none
        | some t => some (none, { e₁ with text := t })
    else some (none, e)
  else
    match e.text.delete_at (e.cur_line - 1) e.cur_pos.x with
    | none => none
    | some (c, t) => some (c, { e with text := t })

/-- Rust `TextEditor::insert_char_at`. -/
def insert_char_at (e : Editor) (c : Char) (x y : Nat) : Option Editor :=
  if c = '\n' then e.new_line
  else
    match e.text.insert_at x y c with
    | none => none
    | some t => some { e with text := t }

/-- Rust `TextEditor::append_char_at_cur`: insert at the cursor and advance
(`'\n'` splits the line instead). -/
def append_char_at_cur (e : Editor) (c : Char) : Option Editor :=
  if c = '\n' then e.new_line
  else
    match e.insert_char_at c (e.cur_line - 1) (e.cur_pos.x - 1) with
    | none => none
    | some e' => some e'.inc_x

/-- Iterated `delete_cur_char` with the removed character discarded (the
`for _ in 0..4` tab loop of `revoke_action`). -/
def delete_cur_char_n (e : Editor) : Nat → Option Editor
  | 0 => some e
  | n + 1 =>
    match e.delete_cur_char with
    | none => none
    | some (_, e') => delete_cur_char_n e' n

/-- Content replay of `revoke_action` for a recorded Delete: re-insert each
recorded character (`unreachable!` — `none` — on a non-character key). -/
def revokeDelete (e : Editor) : List Key → Option Editor
  | [] => some e
  | Key.Char c :: rest =>
    match e.append_char_at_cur c with
    | none => none
    | some e' => revokeDelete e' rest
  | _ :: _ => none

/-- Content replay of `revoke_action` for a recorded Insert: delete one
character per recorded key, four for a recorded tab. -/
def revokeInsert (e : Editor) : List Key → Option Editor
  | [] => some e
  | k :: rest =>
    match e.delete_cur_char_n (if k = Key.Char '\t' then 4 else 1) with
    | none => none
    | some e' => revokeInsert e' rest

/-- Rust `TextEditor::revoke_action` (undo): reposition the cursor to the
entry's anchor and reverse the recorded edit, with the replay guard
`processing_action` raised for the duration. -/
def revoke_action (e : Editor) (action : Option CmdAction) : Option Editor :=
  let e := { e with processing_action := true }
  match action with
  | none => some { e with processing_action := false }
  | some a =>
    let e := e.set_pos a.pos.x a.pos.y
    let e := { e with cur_line := a.cur_line }
    let res :=
      match a.action with
      | Action.Delete => e.revokeDelete a.contents
      | Action.Insert => e.revokeInsert a.contents
    match res with
    | none => none
    | some e' => some { e' with processing_action := false }

/-- Loop `while is_alphabet(cur_char)` stepping with
`forward_to_next_char` (used by `forward_to_end_of_cur_word` and
`forward_to_start_of_next_word`): the returned Bool is `true` when the
source does an early `return` (the step reported no movement); `none` is
exhausted fuel. -/
def alphaFwdLoop : Nat → Editor → Option (Editor × Bool)
  | 0, _ => none
  | f + 1, e =>
    if is_alphabet e.cur_char then
      let old := e.cur_line
      let (e', moved) := e.forward_to_next_char
      if moved = false then some (e', true)
      else if e'.cur_line ≠ old then some (e', false)
      else alphaFwdLoop f e'
    else some (e, false)

/-- Loop `while is_alphabet(cur_char)` stepping with
`backward_to_next_char` (used by `forward_to_start_of_cur_word`). -/
def alphaBwdLoop : Nat → Editor → Option (Editor × Bool)
  | 0, _ => none
  | f + 1, e =>
    if is_alphabet e.cur_char then
      let old := e.cur_line
      let (e', moved) := e.backward_to_next_char
      if moved = false then some (e', true)
      else if e'.cur_line ≠ old then some (e', false)
      else alphaBwdLoop f e'
    else some (e, false)

/-- Loop `while !is_alphabet(cur_char) { forward_to_next_char(); }` — the
step's failure flag is IGNORED by the source, so at the end of the
document on a non-alphanumeric character this loop never exits (`none` for
every fuel). -/
def scanFwdLoop : Nat → Editor → Option Editor
  | 0, _ => none
  | f + 1, e =>
    if is_alphabet e.cur_char then some e
    else scanFwdLoop f e.forward_to_next_char.1

/-- Loop `while !is_alphabet(cur_char) { backward_to_next_char(); }` (same
ignored failure flag, at the start of the document). -/
def scanBwdLoop : Nat → Editor → Option Editor
  | 0, _ => none
  | f + 1, e =>
    if is_alphabet e.cur_char then some e
    else scanBwdLoop f e.backward_to_next_char.1

/-- Rust `TextEditor::forward_to_end_of_cur_word` (entry `assert!` modelled
as `none` on failure). -/
def forward_to_end_of_cur_word (f : Nat) (e : Editor) : Option Editor :=
  if is_alphabet e.cur_char = false then none
  else
    match alphaFwdLoop f e with
    | none => none
    | some (e', early) =>
      if early then some e' else some e'.backward_to_next_char.1

/-- Rust `TextEditor::forward_to_start_of_cur_word`. -/
def forward_to_start_of_cur_word (f : Nat) (e : Editor) : Option Editor :=
  if is_alphabet e.cur_char = false then none
  else
    match alphaBwdLoop f e with
    | none => none
    | some (e', early) =>
      if early then some e' else some e'.forward_to_next_char.1

/-- Rust `TextEditor::backward_to_start_of_next_word` (`b`). -/
def backward_to_start_of_next_word (f : Nat) (e : Editor) : Option Editor :=
  let e := e.backward_to_next_char.1
  let step :=
    if is_alphabet e.cur_char then forward_to_start_of_cur_word f e
    else scanBwdLoop f e
  match step with
  | none => none
  | some e' => forward_to_start_of_cur_word f e'

/-- Rust `TextEditor::forward_to_end_of_next_word` (`e`). -/
def forward_to_end_of_next_word (f : Nat) (e : Editor) : Option Editor :=
  let e := e.forward_to_next_char.1
  let step :=
    if is_alphabet e.cur_char then forward_to_end_of_cur_word f e
    else scanFwdLoop f e
  match step with
  | none => none
  | some e' => forward_to_end_of_cur_word f e'

/-- Rust `TextEditor::forward_to_start_of_next_word` (`w`): skip the
current word (early-returning if the document ends inside it), then scan
for the next alphanumeric character. -/
def forward_to_start_of_next_word (f : Nat) (e : Editor) : Option Editor :=
  match alphaFwdLoop f e with
  | none => none
  | some (e', early) =>
    if early then some e' else scanFwdLoop f e'

end Editor

/-- Modelled from the spec: `Text::to_string` (called by
`TextEditor::flush_to_disk`) has no implementation in src/text.rs.  Spec
section 6: "serialize all lines joined by newline". -/
def Text.to_string (t : Text) : Line := List.intercalate ['\n'] t.lines

namespace Editor

/-- Rust `TextEditor::flush_to_disk`, modelled as the content handed to
`fs::write`. -/
def flush_to_disk (e : Editor) : Line := e.text.to_string

/-- Rust `TextEditor::try_perform_command`.  The entry `assert!` accepts
Command (or the `Search` variant absent from `mode.rs`); in Command mode
the command-line buffer selects the action: "q" exits, "w" writes the
serialized buffer (returned as the second component) and goes back to
Normal, anything else is `unimplemented!()`.  Panics are `none`. -/
def try_perform_command (e : Editor) : Option (Option Mode × Option Line) :=
  if e.mode = Mode.Command then
    if e.bar_text.line_at 0 = ['q'] then some (some Mode.Exit, none)
    else if e.bar_text.line_at 0 = ['w'] then some (some Mode.Normal, some e.flush_to_disk)
    else none
  else none

/-- Tab expansion loop of `Mode::handle_insert`: insert a space at the
FIXED source position (x, y) and advance the cursor, four times. -/
def insertSpaces (x y : Nat) : Nat → Editor → Option Editor
  | 0, e => some e
  | n + 1, e =>
    match e.text.insert_at x y ' ' with
    | none => none
    | some t => insertSpaces x y n ({ e with text := t }).inc_x

end Editor

/-- Rust `Mode::handle_insert` from `mode.rs`. -/
def handle_insert (e : Editor) (key : Key) : Option (Editor × Mode) :=
  match key with
  | Key.Char c =>
    let inserted : Option Editor :=
      if c = '\n' then e.new_line
      else if c = '\t' then
        Editor.insertSpaces (e.cur_line - 1) (e.cur_pos.x - 1) 4 e
      else
        match e.text.insert_at (e.cur_line - 1) (e.cur_pos.x - 1) c with
        | none => none
        | some t => some ({ e with text := t }).inc_x
    match inserted with
    | none => none
    | some e' =>
      if e'.processing_action = false then
        match e'.action_stack.append_key_to_top key with
        | none => none
        | some s => some ({ e' with action_stack := s }, Mode.Insert)
      else some (e', Mode.Insert)
  | Key.Left =>
    let e := e.dec_x
    some ({ e with action_stack := e.action_stack.add_action Action.Insert e.cur_line e.cur_pos },
      Mode.Insert)
  | Key.Down =>
    let e := e.inc_y
    some ({ e with action_stack := e.action_stack.add_action Action.Insert e.cur_line e.cur_pos },
      Mode.Insert)
  | Key.Up =>
    let e := e.dec_y
    some ({ e with action_stack := e.action_stack.add_action Action.Insert e.cur_line e.cur_pos },
      Mode.Insert)
  | Key.Right =>
    let e := e.inc_x
    some ({ e with action_stack := e.action_stack.add_action Action.Insert e.cur_line e.cur_pos },
      Mode.Insert)
  | Key.Backspace =>
    let x := e.cur_line - 1
    let y := e.cur_pos.x - 1
    let stepped : Option Editor :=
      if y = 0 then
        if x ≠ 0 then
          match e.delete_line_at x with
          | none => none
          | some (_, e') => some e'.dec_y.move_to_end_of_line
        else some e
      else
        match e.text.delete_at x y with
        | none => none
        | some (_, t) => some ({ e with text := t }).dec_x
    match stepped with
    | none => none
    | some e' =>
      if e'.processing_action = false then
        match e'.action_stack.discard_key_on_top with
        | none => none
        | some s => some ({ e' with action_stack := s }, Mode.Insert)
      else some (e', Mode.Insert)
  | Key.Delete =>
    match e.delete_cur_char with
    | none => none
    | some (_, e') => some (e', Mode.Insert)
  | Key.Esc => some (e.dec_x, Mode.Normal)
  | Key.Ctrl c => if c = 'q' then some (e, Mode.Exit) else some (e, Mode.Insert)

/-- Rust `Mode::handle_command` from `mode.rs`: `Esc` goes back to Normal,
Ctrl-q exits, and EVERY other key — including printable characters — is
dropped without touching any editor state. -/
def handle_command (e : Editor) (key : Key) : Editor × Mode :=
  match key with
  | Key.Esc => (e, Mode.Normal)
  | Key.Ctrl c => if c = 'q' then (e, Mode.Exit) else (e, Mode.Command)
  | _ => (e, Mode.Command)

/-- Content replay of `restore_action` for a recorded Insert: feed each
recorded key back through `Mode::handle_insert` (the returned mode is
dropped by the source). -/
def restoreInsert (e : Editor) : List Key → Option Editor
  | [] => some e
  | k :: rest =>
    match handle_insert e k with
    | none => none
    | some (e', _) => restoreInsert e' rest

mutual

/-- Rust `Mode::handle_normal` from `mode.rs`: when no task replay is in
progress, give `pre_handle_normal` the first go (a handled key yields
Normal); otherwise — and for keys the accumulator rejects — fall through
to the main single-key match (`handleNormalCore`).  All functions of this
block spend one unit of fuel per call; `none` is a panic or exhausted
fuel. -/
def handle_normal : Nat → Editor → Key → Option (Editor × Mode)
  | 0, _, _ => none
  | f + 1, e, key =>
    if e.processing_task = false then
      match pre_handle_normal f e key with
      | none => none
      | some (e', true) => some (e', Mode.Normal)
      | some (_, false) => handleNormalCore f e key
    else handleNormalCore f e key

/-- Rust `Mode::pre_handle_normal` from `mode.rs`, its match arms flattened
into a push/no-push decision (the source mutates the accumulator exactly
when it pushes, and returns `false` leaving the editor untouched
otherwise): digits accumulate (a leading `'0'` only when a prefix is
already pending), movement keys join only when a numeric prefix is
pending, `i`/`a` join only a non-empty accumulator, `c`/`d`/`y` always
join.  After a push the task is executed via `try_perform_task` and the
handler reports `true`. -/
def pre_handle_normal : Nat → Editor → Key → Option (Editor × Bool)
  | 0, _, _ => none
  | f + 1, e, key =>
    let pushes : Bool :=
      match key with
      | Key.Char c =>
        if '0' ≤ c ∧ c ≤ '9' then
          if c = '0' then e.task.has_num else true
        else if c = 'j' ∨ c = 'k' ∨ c = 'h' ∨ c = 'l' ∨ c = 'e' ∨ c = 'w' ∨ c = 'b' ∨ c = ' '
          then e.task.has_num
        else if c = 'i' ∨ c = 'a' then decide (0 < e.task.len)
        else if c = 'c' ∨ c = 'd' ∨ c = 'y' then true
        else false
      | Key.Backspace => e.task.has_num
      | Key.Left => e.task.has_num
      | Key.Right => e.task.has_num
      | Key.Down => e.task.has_num
      | Key.Up => e.task.has_num
      | _ => false
    if pushes then
      match try_perform_task f { e with task := e.task.push key } with
      | none => none
      | some e' => some (e', true)
    else some (e, false)

/-- Rust `TextEditor::try_perform_task` from `main.rs`: under the raised
`processing_task` guard, a movement-completed task replays its final key
`num()` times through `handle_normal` and clears the accumulator; a task
whose last two keys are "dd" deletes the current line and clears; anything
else just lowers the guard again. -/
def try_perform_task : Nat → Editor → Option Editor
  | 0, _ => none
  | f + 1, e =>
    let e := { e with processing_task := true }
    if e.task.is_movement then
      if e.task.has_num = false then none
      else
        match e.task.num with
        | none => none
        | some n =>
          match e.task.last_task with
          | none => none
          | some key =>
            match replayN f n e key with
            | none => none
            | some e' => some { e' with task := e'.task.clear, processing_task := false }
    else if e.task.last_two_task = some ['d', 'd'] then
      match e.delete_cur_line with
      | none => none
      | some (_, e') => some { e' with task := e'.task.clear, processing_task := false }
    else some { e with processing_task := false }

/-- Replay loop of `try_perform_task`: `for _ in 0..n` feed the key to
`handle_normal` (the returned mode is dropped by the source). -/
def replayN : Nat → Nat → Editor → Key → Option Editor
  | 0, _, _, _ => none
  | _ + 1, 0, e, _ => some e
  | f + 1, n + 1, e, key =>
    match handle_normal f e key with
    | none => none
    | some (e', _) => replayN f n e' key

/-- Rust `TextEditor::restore_action` (redo) from `main.rs`: under the
raised `processing_action` guard, reposition to the recorded anchor
(unless a repeat is in progress) and re-apply the edit by feeding the
recorded keys through the live input paths. -/
def restore_action : Nat → Editor → Option CmdAction → Option Editor
  | 0, _, _ => none
  | f + 1, e, action =>
    let e := { e with processing_action := true }
    match action with
    | none => some { e with processing_action := false, repeating_action := false }
    | some a =>
      let e :=
        if e.repeating_action = false then
          { e.set_pos a.pos.x a.pos.y with cur_line := a.cur_line }
        else e
      let res :=
        match a.action with
        | Action.Insert => restoreInsert e a.contents
        | Action.Delete => restoreDeleteN f e a.contents
      match res with
      | none => none
      | some e' => some { e' with processing_action := false, repeating_action := false }

/-- Content replay of `restore_action` for a recorded Delete: one
`handle_normal` call with the key `x` per recorded content key. -/
def restoreDeleteN : Nat → Editor → List Key → Option Editor
  | 0, _, _ => none
  | _ + 1, e, [] => some e
  | f + 1, e, _ :: rest =>
    match handle_normal f e (Key.Char 'x') with
    | none => none
    | some (e', _) => restoreDeleteN f e' rest

/-- Main single-key match of `Mode::handle_normal` (the part after the
accumulator gets its chance), arm for arm from `mode.rs`. -/
def handleNormalCore : Nat → Editor → Key → Option (Editor × Mode)
  | 0, _, _ => none
  | f + 1, e, key =>
    match key with
    | Key.Ctrl c =>
      if c = 'q' then some (e, Mode.Exit)
      else if c = 'r' then
        let (action, s) := e.action_stack.forward
        match restore_action f { e with action_stack := s } action with
        | none => none
        | some e' => some (e', Mode.Normal)
      else some (e, Mode.Normal)
    | Key.Left => some (e.dec_x, Mode.Normal)
    | Key.Down => some (e.inc_y, Mode.Normal)
    | Key.Up => some (e.dec_y, Mode.Normal)
    | Key.Right => some (e.inc_x, Mode.Normal)
    | Key.Backspace => some (e.backward_to_next_char.1, Mode.Normal)
    | Key.Char c =>
      if c = 'h' then some (e.dec_x, Mode.Normal)
      else if c = 'j' then some (e.inc_y, Mode.Normal)
      else if c = 'k' then some (e.dec_y, Mode.Normal)
      else if c = 'l' then some (e.inc_x, Mode.Normal)
      else if c = 'A' then
        let e := { e with mode := Mode.Insert }
        let e := e.move_to_end_of_line
        some ({ e with action_stack :=
                  e.action_stack.add_action Action.Insert e.cur_line e.cur_pos },
          Mode.Insert)
      else if c = 'I' then
        let e := { e with mode := Mode.Insert }
        let e := e.move_to_first_char_of_line
        some ({ e with action_stack :=
                  e.action_stack.add_action Action.Insert e.cur_line e.cur_pos },
          Mode.Insert)
      else if c = '$' then some (e.move_to_end_of_line, Mode.Normal)
      else if c = '0' then some (e.move_to_start_of_line, Mode.Normal)
      else if c = 'e' then
        match Editor.forward_to_end_of_next_word f e with
        | none => none
        | some e' => some (e', Mode.Normal)
      else if c = 'w' then
        match Editor.forward_to_start_of_next_word f e with
        | none => none
        | some e' => some (e', Mode.Normal)
      else if c = 'b' then
        match Editor.backward_to_start_of_next_word f e with
        | none => none
        | some e' => some (e', Mode.Normal)
      else if c = 'u' then
        let (action, s) := e.action_stack.backward
        match Editor.revoke_action { e with action_stack := s } action with
        | none => none
        | some e' => some (e', Mode.Normal)
      else if c = 'a' then
        let e := { e with mode := Mode.Insert }
        let e := e.inc_x
        some ({ e with action_stack :=
                  e.action_stack.add_action Action.Insert e.cur_line e.cur_pos },
          Mode.Insert)
      else if c = 'x' then
        match e.delete_cur_char with
        | none => none
        | some (ch, e₁) =>
          let e₂ := { e₁ with action_stack :=
                        e₁.action_stack.add_action Action.Delete e₁.cur_line e₁.cur_pos }
          match ch with
          | some ch =>
            if e₂.processing_action = false then
              match e₂.action_stack.append_key_to_top (Key.Char ch) with
              | none => none
              | some st => some ({ e₂ with action_stack := st }, Mode.Normal)
            else some (e₂, Mode.Normal)
          | none => some (e₂, Mode.Normal)
      else if c = 's' then
        match e.delete_cur_char with
        | none => none
        | some (_, e₁) =>
          some ({ e₁ with action_stack :=
                    e₁.action_stack.add_action Action.Insert e₁.cur_line e₁.cur_pos },
            Mode.Insert)
      else if c = 'S' then
        match e.delete_cur_line with
        | none => none
        | some (_, e₁) =>
          let e₂ := e₁.new_line_ahead
          some ({ e₂ with action_stack :=
                    e₂.action_stack.add_action Action.Insert e₂.cur_line e₂.cur_pos },
            Mode.Insert)
      else if c = ' ' then some (e.forward_to_next_char.1, Mode.Normal)
      else if c = 'o' then
        match e.new_line_behind with
        | none => none
        | some e₁ =>
          some ({ e₁ with action_stack :=
                    e₁.action_stack.add_action Action.Insert e₁.cur_line e₁.cur_pos },
            Mode.Insert)
      else if c = 'O' then
        let e₁ := e.new_line_ahead
        some ({ e₁ with action_stack :=
                  e₁.action_stack.add_action Action.Insert e₁.cur_line e₁.cur_pos },
          Mode.Insert)
      else if c = 'i' then
        some ({ e with action_stack :=
                  e.action_stack.add_action Action.Insert e.cur_line e.cur_pos },
          Mode.Insert)
      else if c = ':' then some (e, Mode.Command)
      else if c = 'v' then
        let pos : Coordinates := ⟨e.cur_pos.x - 1, e.cur_line - 1⟩
        some ({ e with select_view := SelectView.CharacterView ⟨pos, pos⟩ }, Mode.Visual)
      else if c = 'V' then
        some ({ e with select_view :=
                  SelectView.LineView ⟨e.cur_line - 1, e.cur_line - 1⟩ },
          Mode.Visual)
      else some (e, Mode.Normal)
    | _ => some (e, Mode.Normal)

end

/-- Rust `TextEditor::sort_select_view` from `main.rs`: normalize a
selection so that `start` precedes `fin` in document order (`y` is the
line, `x` the column); the BlockView arm is `todo!()` (`none`). -/
def sort_select_view : SelectView → Option SelectView
  | SelectView.CharacterView v =>
    if v.fin.y < v.start.y ∨ (v.start.y = v.fin.y ∧ v.fin.x < v.start.x) then
      some (SelectView.CharacterView ⟨v.fin, v.start⟩)
    else some (SelectView.CharacterView ⟨v.start, v.fin⟩)
  | SelectView.LineView v =>
    if v.fin < v.start then some (SelectView.LineView ⟨v.fin, v.start⟩)
    else some (SelectView.LineView ⟨v.start, v.fin⟩)
  | SelectView.BlockView _ => none
  | SelectView.None => some SelectView.None

/-- Rust `TextEditor::is_select_end` from `main.rs` (it reads only the
selection, modelled as an explicit argument). -/
def is_select_end (sv : SelectView) (col line : Nat) : Option Bool :=
  match sort_select_view sv with
  | none => none
  | some (SelectView.CharacterView v) =>
    some (decide (line > v.fin.y ∨ (col ≥ v.fin.x ∧ line = v.fin.y)))
  | some (SelectView.LineView v) => some (decide (col ≥ v.fin))
  | some (SelectView.BlockView v) => some (decide (col = v.fin.x ∧ line ≤ v.fin.y))
  | some SelectView.None => some false

/-- Rust `TextEditor::is_select_start` from `main.rs`. -/
def is_select_start (sv : SelectView) (col line : Nat) : Option Bool :=
  match sort_select_view sv with
  | none => none
  | some (SelectView.CharacterView v) =>
    some (decide ((line > v.start.y ∨ (col ≥ v.start.x ∧ line = v.start.y)) ∧
                  (line < v.fin.y ∨ (line = v.fin.y ∧ col ≤ v.fin.x))))
  | some (SelectView.LineView v) => some (decide (line ≥ v.start ∧ line ≤ v.fin))
  | some (SelectView.BlockView v) => some (decide (col = v.start.x ∧ line ≥ v.start.y))
  | some SelectView.None => some false

/-- Baseline editor used by concrete instances: an 80×24 terminal, cursor
at the top-left, Normal mode, everything else empty. -/
def mkEditor (t : Text) : Editor :=
  { text := t
    bar_text := Text.new
    cur_pos := ⟨1, 1⟩
    cur_line := 1
    view := ⟨0, min t.len 23⟩
    select_view := SelectView.None
    terminal_size := ⟨80, 24⟩
    mode := Mode.Normal
    task := ⟨[]⟩
    action_stack := ⟨[], []⟩
    processing_action := false
    processing_task := false
    repeating_action := false }

/-- A list set at an index it already holds is unchanged. -/
theorem List.set_get_self {α : Type} : ∀ (l : List α) (i : Nat) (a : α),
    l[i]? = some a → l.set i a = l
  | [], i, a, h => by simp at h
  | b :: l, 0, a, h => by simp_all
  | b :: l, i + 1, a, h => by
    simp only [List.getElem?_cons_succ] at h
    simp [List.set_get_self l i a h]

/-- C3 counterexample: a fresh `add_action` on a stack with a pending redo
candidate does NOT clear the forward stack. -/
theorem C3_counterexample :
    ((ActionStack.mk [] [⟨Action.Insert, ⟨1, 1⟩, 1, []⟩]).add_action Action.Delete 1
        ⟨1, 1⟩).forward_stack ≠ [] := by decide

/-- C3 (amended): `add_action` pushes a fresh empty-content entry onto the
backward stack and leaves the forward stack exactly as it was; the forward
stack is only ever modified by the undo/redo transfer. -/
theorem C3_add_action_forward_untouched (s : ActionStack) (a : Action) (l : Nat)
    (p : Coordinates) :
    (s.add_action a l p).forward_stack = s.forward_stack ∧
    (s.add_action a l p).backward_stack = ⟨a, p, l, []⟩ :: s.backward_stack :=
  ⟨rfl, rfl⟩

/-- C10: undo/redo is a stack-exact round trip: a successful `backward` is
inverted by `forward` (same action, both stacks restored), and
symmetrically; popping an empty stack returns `none` and changes
nothing. -/
theorem C10_undo_redo_round_trip (s s' : ActionStack) (a : CmdAction) :
    (s.backward = (some a, s') → s'.forward = (some a, s)) ∧
    (s.forward = (some a, s') → s'.backward = (some a, s)) ∧
    (s.backward_stack = [] → s.backward = (none, s)) ∧
    (s.forward_stack = [] → s.forward = (none, s)) := by
  obtain ⟨bs, fs⟩ := s
  refine ⟨?_, ?_, ?_, ?_⟩
  · intro h
    cases bs with
    | nil => simp [ActionStack.backward] at h
    | cons b rest =>
      simp only [ActionStack.backward, Prod.mk.injEq, Option.some.injEq] at h
      obtain ⟨rfl, rfl⟩ := h
      simp [ActionStack.forward]
  · intro h
    cases fs with
    | nil => simp [ActionStack.forward] at h
    | cons b rest =>
      simp only [ActionStack.forward, Prod.mk.injEq, Option.some.injEq] at h
      obtain ⟨rfl, rfl⟩ := h
      simp [ActionStack.backward]
  · intro h
    subst h
    rfl
  · intro h
    subst h
    rfl

/-- Witness for C10 at a concrete one-entry stack. -/
theorem C10_witness :
    (ActionStack.mk [] [⟨Action.Insert, ⟨1, 1⟩, 1, []⟩]).forward =
      (some ⟨Action.Insert, ⟨1, 1⟩, 1, []⟩, ⟨[⟨Action.Insert, ⟨1, 1⟩, 1, []⟩], []⟩) :=
  (C10_undo_redo_round_trip ⟨[⟨Action.Insert, ⟨1, 1⟩, 1, []⟩], []⟩
      ⟨[], [⟨Action.Insert, ⟨1, 1⟩, 1, []⟩]⟩ ⟨Action.Insert, ⟨1, 1⟩, 1, []⟩).1 (by decide)

/-- C9: with `A` before `B` in document order, the normalized selection is
the same whichever way round the endpoints are stored. -/
theorem sort_select_view_comm (A B : Coordinates)
    (h : A.y < B.y ∨ (A.y = B.y ∧ A.x ≤ B.x)) :
    sort_select_view (SelectView.CharacterView ⟨A, B⟩) =
      sort_select_view (SelectView.CharacterView ⟨B, A⟩) := by
  obtain ⟨ax, ay⟩ := A
  obtain ⟨bx, by'⟩ := B
  simp only [sort_select_view]
  split_ifs with h1 h2 h2 <;> simp_all <;> omega

/-- C9: selection membership (both the start and the end query) does not
depend on the order in which the CharacterView endpoints were written,
whenever `A` does not come after `B` in document order (line-major, then
column). -/
theorem C9_select_membership_order_independent (A B : Coordinates) (col line : Nat)
    (h : A.y < B.y ∨ (A.y = B.y ∧ A.x ≤ B.x)) :
    is_select_start (SelectView.CharacterView ⟨A, B⟩) col line =
      is_select_start (SelectView.CharacterView ⟨B, A⟩) col line ∧
    is_select_end (SelectView.CharacterView ⟨A, B⟩) col line =
      is_select_end (SelectView.CharacterView ⟨B, A⟩) col line := by
  unfold is_select_start is_select_end
  rw [sort_select_view_comm A B h]
  exact ⟨rfl, rfl⟩

/-- Witness for C9 at concrete endpoints and cell. -/
theorem C9_witness :
    is_select_start (SelectView.CharacterView ⟨⟨1, 0⟩, ⟨0, 2⟩⟩) 3 1 =
      is_select_start (SelectView.CharacterView ⟨⟨0, 2⟩, ⟨1, 0⟩⟩) 3 1 ∧
    is_select_end (SelectView.CharacterView ⟨⟨1, 0⟩, ⟨0, 2⟩⟩) 3 1 =
      is_select_end (SelectView.CharacterView ⟨⟨0, 2⟩, ⟨1, 0⟩⟩) 3 1 :=
  C9_select_membership_order_independent ⟨1, 0⟩ ⟨0, 2⟩ 3 1 (by decide)

/-- Splicing a line before an index always grows the buffer by one. -/
theorem Text.add_line_before_length (t : Text) (idx : Nat) (c : Line) :
    (t.add_line_before idx c).lines.length = t.lines.length + 1 := by
  unfold Text.add_line_before Text.push_line
  split_ifs with h
  · simp
  · simp only [List.length_append, List.length_take, List.length_cons, List.length_drop]
    omega

/-- C1 counterexample: `Text::new` yields a buffer with ZERO lines, and
`delete_line_at` kills the invariant on a one-line buffer. -/
theorem C1_counterexample :
    Text.new.lines.length = 0 ∧
    (Text.mk [[]]).delete_line_at 0 = some ([], Text.mk []) := by decide

/-- C1 (amended): `insert_at`, `delete_at`, `new_line_at`,
`add_line_before`, `push_line` and `append_str_at` preserve
`lines.len() ≥ 1`; `Text::new` however starts at zero lines, and
`delete_line_at` (hence also `delete_range`, which calls it) can shrink a
one-line buffer to zero lines. -/
theorem C1_ops_preserve_nonempty (t : Text) (ht : 1 ≤ t.lines.length) :
    (∀ x y c t', t.insert_at x y c = some t' → 1 ≤ t'.lines.length) ∧
    (∀ x y r, t.delete_at x y = some r → 1 ≤ r.2.lines.length) ∧
    (∀ x i t', t.new_line_at x i = some t' → 1 ≤ t'.lines.length) ∧
    (∀ i c, 1 ≤ (t.add_line_before i c).lines.length) ∧
    (∀ c, 1 ≤ (t.push_line c).lines.length) ∧
    (∀ x y str t', t.append_str_at x y str = some t' → 1 ≤ t'.lines.length) := by
  refine ⟨?_, ?_, ?_, ?_, ?_, ?_⟩
  · intro x y c t' h
    unfold Text.insert_at at h
    dsimp only at h
    split at h
    · exact absurd h (by simp)
    · simp only [Option.some.injEq] at h
      subst h
      simpa using ht
  · intro x y r h
    unfold Text.delete_at at h
    dsimp only at h
    split at h
    · exact absurd h (by simp)
    · split at h
      · split at h
        · simp only [Option.some.injEq] at h
          subst h
          simpa using ht
        · exact absurd h (by simp)
      · simp only [Option.some.injEq] at h
        subst h
        simpa using ht
  · intro x i t' h
    unfold Text.new_line_at at h
    dsimp only at h
    split at h
    · exact absurd h (by simp)
    · simp only [Option.some.injEq] at h
      subst h
      rw [Text.add_line_before_length]
      omega
  · intro i c
    rw [Text.add_line_before_length]
    omega
  · intro c
    unfold Text.push_line
    simp only [List.length_append, List.length_cons, List.length_nil]
    omega
  · intro x y str t' h
    unfold Text.append_str_at at h
    dsimp only at h
    split at h
    · exact absurd h (by simp)
    · simp only [Option.some.injEq] at h
      subst h
      simpa using ht

/-- Witness for C1 on a concrete one-line buffer. -/
theorem C1_witness : 1 ≤ ((Text.mk [['a']]).push_line []).lines.length :=
  (C1_ops_preserve_nonempty ⟨[['a']]⟩ (by decide)).2.2.2.2.1 []

/-- C5 counterexample: `delete_at` with column 0 on a non-empty line panics
(the `usize` wrap of `0.max(y - 1)` sends the removal index out of
bounds), so `delete_at` is not total. -/
theorem C5_counterexample : (Text.mk [['a']]).delete_at 0 0 = none := by decide

/-- C5 (amended): for every buffer with at least one line and every column
argument `y ≥ 1` (as supplied by the 1-based cursor), `delete_at` does not
panic: it removes and returns the character immediately before the clamped
column when the target line is non-empty, and returns `none` leaving the
buffer unchanged when the line is already empty.  (With column 0 on a
non-empty line it panics — see the counterexample.) -/
theorem C5_delete_at_behaviour (t : Text) (x y : Nat) (ht : 1 ≤ t.lines.length)
    (hy : 1 ≤ y) (L : Line) (hL : t.lines[min x (t.lines.length - 1)]? = some L) :
    (L.length = 0 → t.delete_at x y = some (none, t)) ∧
    (1 ≤ L.length →
      t.delete_at x y =
        some (some (L.getD (min y L.length - 1) (Char.ofNat 0)),
          ⟨t.lines.set (min x (t.lines.length - 1))
            (L.take (min y L.length - 1) ++ L.drop (min y L.length))⟩)) := by
  have hw : wrapSub t.lines.length 1 = t.lines.length - 1 := by
    unfold wrapSub
    rw [if_pos ht]
  constructor
  · intro hLen
    unfold Text.delete_at
    dsimp only
    rw [hw, hL]
    simp [hLen]
  · intro hLen
    have hmin : 1 ≤ min y L.length := le_min hy hLen
    have hws : wrapSub (min y L.length) 1 = min y L.length - 1 := by
      unfold wrapSub
      rw [if_pos hmin]
    have hlt : min y L.length - 1 < L.length := by omega
    have h1 : min y L.length - 1 + 1 = min y L.length := by omega
    unfold Text.delete_at
    dsimp only
    rw [hw, hL]
    simp only [hws, Nat.zero_max, h1]
    rw [if_pos (by omega : L.length > 0), dif_pos hlt]
    simp [List.getD_eq_getElem?_getD, List.getElem?_eq_getElem hlt]

/-- Witness for C5: a concrete non-empty line and a concrete empty line. -/
theorem C5_witness :
    (Text.mk [['a', 'b']]).delete_at 0 2 = some (some 'b', Text.mk [['a']]) ∧
    (Text.mk [[]]).delete_at 5 3 = some (none, Text.mk [[]]) := by
  constructor
  · have h := (C5_delete_at_behaviour ⟨[['a', 'b']]⟩ 0 2 (by decide) (by decide)
      ['a', 'b'] (by decide)).2 (by decide)
    simpa using h
  · exact (C5_delete_at_behaviour ⟨[[]]⟩ 5 3 (by decide) (by decide) [] (by decide)).1 rfl

/-- C8: the Command-mode key handler drops every typed character without
touching the editor (in particular the command-line buffer) and never
invokes `try_perform_command`; `Esc` does cancel back to Normal, and the
(never-called) `try_perform_command` does map buffer "q" to Exit and
buffer "w" to a disk write of the serialized document plus Normal. -/
theorem C8_command_mode_behaviour :
    (∀ (e : Editor) (c : Char), handle_command e (Key.Char c) = (e, Mode.Command)) ∧
    (∀ e : Editor, handle_command e Key.Esc = (e, Mode.Normal)) ∧
    ({ mkEditor (Text.mk [['h', 'i']]) with
        mode := Mode.Command
        bar_text := Text.mk [['q']] } : Editor).try_perform_command =
      some (some Mode.Exit, none) ∧
    ({ mkEditor (Text.mk [['h', 'i']]) with
        mode := Mode.Command
        bar_text := Text.mk [['w']] } : Editor).try_perform_command =
      some (some Mode.Normal, some ['h', 'i']) :=
  ⟨fun _ _ => rfl, fun _ => rfl, by decide, by decide⟩

/-- Editor-level `delete_line_at` changes only the text and the view. -/
theorem Editor.delete_line_at_preserves (e : Editor) (i : Nat) (res : Line × Editor)
    (h : e.delete_line_at i = some res) :
    res.2.cur_line = e.cur_line ∧ res.2.cur_pos = e.cur_pos ∧
    res.2.action_stack = e.action_stack ∧
    res.2.processing_action = e.processing_action ∧ res.2.mode = e.mode ∧
    res.2.task = e.task ∧ res.2.processing_task = e.processing_task := by
  unfold Editor.delete_line_at at h
  split at h
  · exact absurd h (by simp)
  · dsimp only at h
    split at h <;> (simp only [Option.some.injEq] at h; subst h; simp)

/-- Rust `delete_cur_char` changes only the text and the view. -/
theorem Editor.delete_cur_char_preserves (e : Editor) (r : Option Char × Editor)
    (h : e.delete_cur_char = some r) :
    r.2.cur_line = e.cur_line ∧ r.2.cur_pos = e.cur_pos ∧
    r.2.action_stack = e.action_stack ∧
    r.2.processing_action = e.processing_action := by
  unfold Editor.delete_cur_char at h
  split at h
  · split at h
    · split at h
      · exact absurd h (by simp)
      · rename_i e₁ heq
        split at h
        · exact absurd h (by simp)
        · simp only [Option.some.injEq] at h
          subst h
          have := Editor.delete_line_at_preserves e e.cur_line _ heq
          simp_all
    · simp only [Option.some.injEq] at h
      subst h
      simp
  · split at h
    · exact absurd h (by simp)
    · simp only [Option.some.injEq] at h
      subst h
      simp

/-- Defeq characterization of the `x` arm of `handleNormalCore`. -/
theorem handleNormalCore_x (f : Nat) (e : Editor) :
    handleNormalCore (f + 1) e (Key.Char 'x') =
      (match e.delete_cur_char with
        | none => none
        | some (ch, e₁) =>
          let e₂ := { e₁ with action_stack :=
                        e₁.action_stack.add_action Action.Delete e₁.cur_line e₁.cur_pos }
          match ch with
          | some c =>
            if e₂.processing_action = false then
              match e₂.action_stack.append_key_to_top (Key.Char c) with
              | none => none
              | some st => some ({ e₂ with action_stack := st }, Mode.Normal)
            else some (e₂, Mode.Normal)
          | none => some (e₂, Mode.Normal)) := rfl

/-- The accumulator rejects `x` (not a digit, movement, `i`/`a` or
`c`/`d`/`y` key), leaving the editor untouched. -/
theorem pre_handle_normal_x (f : Nat) (e : Editor) :
    pre_handle_normal (f + 1) e (Key.Char 'x') = some (e, false) := rfl

/-- C7 (amended): in Normal mode `x` deletes the character under the
cursor (or joins the next line at a sentinel position), and a Delete
Action entry is ALWAYS pushed onto the backward stack — also when nothing
was removed; the entry's single-character content is present exactly when
a character was actually removed (and no replay is in progress). -/
theorem C7_x_always_records (f : Nat) (e : Editor) (r : Option Char × Editor)
    (hd : e.delete_cur_char = some r) :
    handle_normal (f + 2) e (Key.Char 'x') =
      some ({ r.2 with action_stack :=
          ⟨⟨Action.Delete, r.2.cur_pos, r.2.cur_line,
              match r.1 with
              | some c => if e.processing_action = false then [Key.Char c] else []
              | none => []⟩ :: r.2.action_stack.backward_stack,
            r.2.action_stack.forward_stack⟩ }, Mode.Normal) ∧
    r.2.action_stack = e.action_stack := by
  have hpres := Editor.delete_cur_char_preserves e r hd
  refine ⟨?_, hpres.2.2.1⟩
  have hcore : handleNormalCore (f + 1) e (Key.Char 'x') =
      some ({ r.2 with action_stack :=
          ⟨⟨Action.Delete, r.2.cur_pos, r.2.cur_line,
              match r.1 with
              | some c => if e.processing_action = false then [Key.Char c] else []
              | none => []⟩ :: r.2.action_stack.backward_stack,
            r.2.action_stack.forward_stack⟩ }, Mode.Normal) := by
    rw [handleNormalCore_x, hd]
    obtain ⟨ch, e₁⟩ := r
    cases ch with
    | none => rfl
    | some c =>
      dsimp only
      rw [← hpres.2.2.2]
      by_cases hpa : e₁.processing_action = false
      · rw [if_pos hpa, if_pos hpa]
        rfl
      · rw [if_neg hpa, if_neg hpa]
        rfl
  unfold handle_normal
  by_cases hp : e.processing_task = false
  · rw [if_pos hp, pre_handle_normal_x]
    exact hcore
  · rw [if_neg hp]
    exact hcore

/-- C7 counterexample: on an empty line at the end of the document, `x`
removes nothing and changes no text, yet the action log GROWS by one
(empty-content) Delete entry — the log is not left unchanged. -/
theorem C7_counterexample :
    (handle_normal 5 (mkEditor (Text.mk [[]])) (Key.Char 'x')).map
        (fun p => (p.1.text, p.1.action_stack.backward_stack.length, p.2)) =
      some (Text.mk [[]], 1, Mode.Normal) := by decide

/-- The count-repeatable movement keys whose Normal-mode action is a
single total cursor motion (the word motions `e`/`w`/`b` also sit in the
source's MOVEMENT table but run unbounded scans). -/
def pureMotionKeys : List Key :=
  [Key.Char 'h', Key.Char 'j', Key.Char 'k', Key.Char 'l', Key.Char ' ',
   Key.Backspace, Key.Left, Key.Right, Key.Up, Key.Down]

/-- The decimal fold of `Task::num` (`usize::from_str_radix` base 10 over
the collected digit characters). -/
def decVal (ds : List Char) : Nat :=
  ds.foldl (fun a c => a * 10 + (c.toNat - 48)) 0

/-- Key-dispatch loop of `run` restricted to the Normal-mode path: keys
are fed one at a time to `handle_normal`, and the run aborts unless every
keystroke answers Normal — a `some` result therefore also certifies the
mode after every step. -/
def feedNormal (f : Nat) : Editor → List Key → Option Editor
  | e, [] => some e
  | e, k :: ks =>
    match handle_normal f e k with
    | some (e', Mode.Normal) => feedNormal f e' ks
    | _ => none

/-- The single-key cursor motion the Normal-mode match performs for each
pure motion key (read off the corresponding `handleNormalCore` arms). -/
def applyMotion (k : Key) (e : Editor) : Editor :=
  match k with
  | Key.Char c =>
    if c = 'h' then e.dec_x
    else if c = 'j' then e.inc_y
    else if c = 'k' then e.dec_y
    else if c = 'l' then e.inc_x
    else if c = ' ' then e.forward_to_next_char.1
    else e
  | Key.Left => e.dec_x
  | Key.Right => e.inc_x
  | Key.Up => e.dec_y
  | Key.Down => e.inc_y
  | Key.Backspace => e.backward_to_next_char.1
  | _ => e

/-- Mode-dependent line length ignores the task and replay-flag fields. -/
theorem len_of_cur_line_update (e : Editor) (t : Task) (b : Bool) :
    Editor.len_of_cur_line { e with task := t, processing_task := b } =
      e.len_of_cur_line := rfl

/-- Document length ignores the task and replay-flag fields. -/
theorem text_length_update (e : Editor) (t : Task) (b : Bool) :
    Editor.text_length { e with task := t, processing_task := b } = e.text_length := rfl

/-- Screen height ignores the task and replay-flag fields. -/
theorem max_y_update (e : Editor) (t : Task) (b : Bool) :
    Editor.max_y { e with task := t, processing_task := b } = e.max_y := rfl

/-- Pure motions ignore and preserve the task and the replay flags. -/
theorem Editor.dec_x_fields (e : Editor) :
    e.dec_x.task = e.task ∧ e.dec_x.processing_task = e.processing_task := by
  unfold Editor.dec_x
  split_ifs <;> exact ⟨rfl, rfl⟩

/-- Column increment preserves the task and the replay flag. -/
theorem Editor.inc_x_fields (e : Editor) :
    e.inc_x.task = e.task ∧ e.inc_x.processing_task = e.processing_task := by
  unfold Editor.inc_x
  split_ifs <;> exact ⟨rfl, rfl⟩

/-- Row increment preserves the task and the replay flag. -/
theorem Editor.inc_y_fields (e : Editor) :
    e.inc_y.task = e.task ∧ e.inc_y.processing_task = e.processing_task := by
  unfold Editor.inc_y
  dsimp only
  split_ifs <;> exact ⟨rfl, rfl⟩

/-- Row decrement preserves the task and the replay flag. -/
theorem Editor.dec_y_fields (e : Editor) :
    e.dec_y.task = e.task ∧ e.dec_y.processing_task = e.processing_task := by
  unfold Editor.dec_y
  dsimp only
  split_ifs <;> exact ⟨rfl, rfl⟩

/-- Forward character stepping preserves the task and the replay flag. -/
theorem Editor.forward_to_next_char_fields (e : Editor) :
    e.forward_to_next_char.1.task = e.task ∧
    e.forward_to_next_char.1.processing_task = e.processing_task := by
  unfold Editor.forward_to_next_char
  dsimp only
  split_ifs <;> exact ⟨rfl, rfl⟩

/-- Backward character stepping preserves the task and the replay flag. -/
theorem Editor.backward_to_next_char_fields (e : Editor) :
    e.backward_to_next_char.1.task = e.task ∧
    e.backward_to_next_char.1.processing_task = e.processing_task := by
  unfold Editor.backward_to_next_char
  dsimp only
  split_ifs <;> exact ⟨rfl, rfl⟩

/-- A pure motion preserves the task and the replay flag. -/
theorem applyMotion_fields (k : Key) (hk : k ∈ pureMotionKeys) (e : Editor) :
    (applyMotion k e).task = e.task ∧
    (applyMotion k e).processing_task = e.processing_task := by
  fin_cases hk
  · exact Editor.dec_x_fields e
  · exact Editor.inc_y_fields e
  · exact Editor.dec_y_fields e
  · exact Editor.inc_x_fields e
  · exact Editor.forward_to_next_char_fields e
  · exact Editor.backward_to_next_char_fields e
  · exact Editor.dec_x_fields e
  · exact Editor.inc_x_fields e
  · exact Editor.dec_y_fields e
  · exact Editor.inc_y_fields e

/-- Iterated pure motions preserve the task and the replay flag. -/
theorem applyMotion_iterate_fields (k : Key) (hk : k ∈ pureMotionKeys) (n : Nat)
    (e : Editor) :
    ((applyMotion k)^[n] e).task = e.task ∧
    ((applyMotion k)^[n] e).processing_task = e.processing_task := by
  induction n generalizing e with
  | zero => exact ⟨rfl, rfl⟩
  | succ n ih =>
    rw [Function.iterate_succ_apply]
    have h1 := applyMotion_fields k hk e
    have h2 := ih (applyMotion k e)
    exact ⟨h1.1 ▸ h2.1, h1.2 ▸ h2.2⟩

/-- Column decrement commutes with setting the task and the replay flag. -/
theorem Editor.dec_x_update (e : Editor) (t : Task) (b : Bool) :
    Editor.dec_x { e with task := t, processing_task := b } =
      { e.dec_x with task := t, processing_task := b } := by
  obtain ⟨e1, e2, e3, e4, e5, e6, e7, e8, e9, e10, e11, e12, e13⟩ := e
  dsimp only [Editor.dec_x]
  split_ifs <;> rfl

/-- Column increment commutes with setting the task and the replay flag. -/
theorem Editor.inc_x_update (e : Editor) (t : Task) (b : Bool) :
    Editor.inc_x { e with task := t, processing_task := b } =
      { e.inc_x with task := t, processing_task := b } := by
  obtain ⟨e1, e2, e3, e4, e5, e6, e7, e8, e9, e10, e11, e12, e13⟩ := e
  dsimp only [Editor.inc_x, Editor.len_of_cur_line, Editor.len_of_line_at,
    Editor.text_length, Editor.max_y, Text.len, Text.len_of_line_at]
  split_ifs <;> rfl

/-- Row increment commutes with setting the task and the replay flag. -/
theorem Editor.inc_y_update (e : Editor) (t : Task) (b : Bool) :
    Editor.inc_y { e with task := t, processing_task := b } =
      { e.inc_y with task := t, processing_task := b } := by
  obtain ⟨e1, e2, e3, e4, e5, e6, e7, e8, e9, e10, e11, e12, e13⟩ := e
  dsimp only [Editor.inc_y, Editor.text_length, Editor.max_y, Text.len]
  split_ifs <;> rfl

/-- Row decrement commutes with setting the task and the replay flag. -/
theorem Editor.dec_y_update (e : Editor) (t : Task) (b : Bool) :
    Editor.dec_y { e with task := t, processing_task := b } =
      { e.dec_y with task := t, processing_task := b } := by
  obtain ⟨e1, e2, e3, e4, e5, e6, e7, e8, e9, e10, e11, e12, e13⟩ := e
  dsimp only [Editor.dec_y]
  split_ifs <;> rfl

/-- Forward character stepping commutes with setting the task and the
replay flag. -/
theorem Editor.forward_to_next_char_update (e : Editor) (t : Task) (b : Bool) :
    (Editor.forward_to_next_char { e with task := t, processing_task := b }).1 =
      { e.forward_to_next_char.1 with task := t, processing_task := b } := by
  obtain ⟨e1, e2, e3, e4, e5, e6, e7, e8, e9, e10, e11, e12, e13⟩ := e
  dsimp only [Editor.forward_to_next_char, Editor.len_of_cur_line, Editor.len_of_line_at,
    Editor.text_length, Editor.max_y, Text.len, Text.len_of_line_at]
  split_ifs <;> rfl

/-- Backward character stepping commutes with setting the task and the
replay flag. -/
theorem Editor.backward_to_next_char_update (e : Editor) (t : Task) (b : Bool) :
    (Editor.backward_to_next_char { e with task := t, processing_task := b }).1 =
      { e.backward_to_next_char.1 with task := t, processing_task := b } := by
  obtain ⟨e1, e2, e3, e4, e5, e6, e7, e8, e9, e10, e11, e12, e13⟩ := e
  dsimp only [Editor.backward_to_next_char, Editor.len_of_cur_line, Editor.len_of_line_at,
    Editor.text_length, Editor.max_y, Text.len, Text.len_of_line_at]
  split_ifs <;> rfl

/-- A pure motion commutes with setting the task and the replay flag
(those fields are neither read nor written by the motion). -/
theorem applyMotion_update (k : Key) (hk : k ∈ pureMotionKeys) (e : Editor) (t : Task)
    (b : Bool) :
    applyMotion k { e with task := t, processing_task := b } =
      { applyMotion k e with task := t, processing_task := b } := by
  fin_cases hk
  · exact Editor.dec_x_update e t b
  · exact Editor.inc_y_update e t b
  · exact Editor.dec_y_update e t b
  · exact Editor.inc_x_update e t b
  · exact Editor.forward_to_next_char_update e t b
  · exact Editor.backward_to_next_char_update e t b
  · exact Editor.dec_x_update e t b
  · exact Editor.inc_x_update e t b
  · exact Editor.dec_y_update e t b
  · exact Editor.inc_y_update e t b

/-- Iterated pure motions commute with setting the task and the replay
flag. -/
theorem applyMotion_iterate_update (k : Key) (hk : k ∈ pureMotionKeys) (n : Nat)
    (e : Editor) (t : Task) (b : Bool) :
    (applyMotion k)^[n] { e with task := t, processing_task := b } =
      { (applyMotion k)^[n] e with task := t, processing_task := b } := by
  induction n generalizing e with
  | zero => rfl
  | succ n ih =>
    rw [Function.iterate_succ_apply, Function.iterate_succ_apply,
      applyMotion_update k hk e t b, ih]

/-- Defeq characterization of `handleNormalCore` on each pure motion key:
it performs the single motion and stays in Normal. -/
theorem handleNormalCore_pure (f : Nat) (e : Editor) (k : Key)
    (hk : k ∈ pureMotionKeys) :
    handleNormalCore (f + 1) e k = some (applyMotion k e, Mode.Normal) := by
  fin_cases hk <;> rfl

/-- With the replay guard up, `handle_normal` on a pure motion key skips
the accumulator and performs the bare motion. -/
theorem handle_normal_guarded_pure (f : Nat) (hf : 2 ≤ f) (e : Editor) (k : Key)
    (hk : k ∈ pureMotionKeys) (hp : e.processing_task = true) :
    handle_normal f e k = some (applyMotion k e, Mode.Normal) := by
  obtain ⟨g, rfl⟩ : ∃ g, f = g + 2 := ⟨f - 2, by omega⟩
  show handle_normal (g + 1 + 1) e k = _
  unfold handle_normal
  rw [if_neg (by simp [hp])]
  exact handleNormalCore_pure g e k hk

/-- The replay loop of `try_perform_task` on a pure motion key is the
`n`-fold iterate of the bare motion. -/
theorem replayN_pure (k : Key) (hk : k ∈ pureMotionKeys) :
    ∀ (n f : Nat) (e : Editor), e.processing_task = true → n + 2 ≤ f →
      replayN f n e k = some ((applyMotion k)^[n] e) := by
  intro n
  induction n with
  | zero =>
    intro f e hp hf
    obtain ⟨g, rfl⟩ : ∃ g, f = g + 1 := ⟨f - 1, by omega⟩
    rfl
  | succ n ih =>
    intro f e hp hf
    obtain ⟨g, rfl⟩ : ∃ g, f = g + 1 := ⟨f - 1, by omega⟩
    show replayN (g + 1) (n + 1) e k = _
    unfold replayN
    rw [handle_normal_guarded_pure g (by omega) e k hk hp]
    dsimp only
    rw [ih g (applyMotion k e) ((applyMotion_fields k hk e).2.trans hp) (by omega)]
    rw [← Function.iterate_succ_apply]

/-- With a numeric prefix pending, the accumulator takes any key of the
MOVEMENT table: it is pushed and the task is executed. -/
theorem pre_handle_movement (f : Nat) (e : Editor) (k : Key) (hk : k ∈ Task.MOVEMENT)
    (hn : e.task.has_num = true) :
    pre_handle_normal (f + 1) e k =
      match try_perform_task f { e with task := e.task.push k } with
      | none => none
      | some e' => some (e', true) := by
  fin_cases hk <;> (unfold pre_handle_normal; rw [hn]; rfl)

/-- On a movement-completed task, `try_perform_task` replays the last key
`num()` times under the raised guard and clears the accumulator. -/
theorem try_perform_task_movement (f : Nat) (e : Editor) (k : Key) (n : Nat)
    (hmov : e.task.is_movement = true) (hn : e.task.has_num = true)
    (hnum : e.task.num = some n) (hlast : e.task.last_task = some k) :
    try_perform_task (f + 1) e =
      match replayN f n { e with processing_task := true } k with
      | none => none
      | some e' => some { e' with task := ⟨[]⟩, processing_task := false } := by
  unfold try_perform_task
  dsimp only
  rw [hmov, hn, hnum, hlast]
  rfl

/-- A decimal digit character lies in the ASCII range from '0' to '9'. -/
theorem isDigit_range (c : Char) (h : c.isDigit = true) : '0' ≤ c ∧ c ≤ '9' := by
  unfold Char.isDigit at h
  simp only [Bool.and_eq_true, decide_eq_true_eq] at h
  exact h

/-- Every pure motion key is in the MOVEMENT table. -/
theorem pureMotion_mem_MOVEMENT (k : Key) (hk : k ∈ pureMotionKeys) :
    k ∈ Task.MOVEMENT := by
  fin_cases hk <;> decide

/-- A digit character key is not in the MOVEMENT table. -/
theorem digit_not_movement (d : Char) (hd : d.isDigit = true) :
    Key.Char d ∉ Task.MOVEMENT := by
  intro hmem
  simp only [Task.MOVEMENT, List.mem_cons, List.not_mem_nil, or_false] at hmem
  rcases hmem with h | h | h | h | h | h | h | h | h | h | h | h | h <;>
    first
      | exact h.elim
      | (injection h with h; subst h; exact absurd hd (by decide))
      | exact Key.noConfusion h

/-- The last entry of a concatenated task is the appended key. -/
theorem task_push_last (l : List Key) (k : Key) :
    Task.last_task ⟨l ++ [k]⟩ = some k := by
  unfold Task.last_task
  exact List.getLast?_concat l

/-- A task ending in a digit key is not movement-completed. -/
theorem task_digit_push_not_movement (l : List Key) (d : Char)
    (hd : d.isDigit = true) :
    Task.is_movement ⟨l ++ [Key.Char d]⟩ = false := by
  unfold Task.is_movement
  rw [task_push_last]
  show Task.MOVEMENT.contains (Key.Char d) = false
  simpa using digit_not_movement d hd

/-- A task ending in a MOVEMENT key is movement-completed. -/
theorem task_movement_push_is_movement (l : List Key) (k : Key)
    (hk : k ∈ Task.MOVEMENT) : Task.is_movement ⟨l ++ [k]⟩ = true := by
  unfold Task.is_movement
  rw [task_push_last]
  show Task.MOVEMENT.contains k = true
  exact List.elem_eq_true_of_mem hk

/-- Character content of a task made of character keys. -/
theorem charsOf_map_char (ds : List Char) :
    Task.charsOf ⟨ds.map Key.Char⟩ = ds := by
  induction ds with
  | nil => rfl
  | cons d ds ih =>
    show d :: Task.charsOf ⟨ds.map Key.Char⟩ = d :: ds
    rw [ih]

/-- Character content distributes over task concatenation. -/
theorem charsOf_append (l1 l2 : List Key) :
    Task.charsOf ⟨l1 ++ l2⟩ = Task.charsOf ⟨l1⟩ ++ Task.charsOf ⟨l2⟩ :=
  List.filterMap_append l1 l2 _

/-- An accumulator holding a digit-headed character list has a numeric
prefix. -/
theorem task_digits_has_num (p : Char) (ds : List Char) (hp : p.isDigit = true) :
    Task.has_num ⟨(p :: ds).map Key.Char⟩ = true := by
  unfold Task.has_num
  rw [charsOf_map_char]
  simp [hp]

/-- Appending any key to a digit-headed accumulator keeps the numeric
prefix. -/
theorem task_digits_push_has_num (p : Char) (ds : List Char) (k : Key)
    (hp : p.isDigit = true) :
    Task.has_num ⟨(p :: ds).map Key.Char ++ [k]⟩ = true := by
  unfold Task.has_num
  rw [charsOf_append, charsOf_map_char]
  simp [hp]

/-- The compound-command probe never reads "dd" off an all-digit
accumulator. -/
theorem last_two_digits_ne_dd (ds : List Char)
    (hds : ∀ c ∈ ds, c.isDigit = true) :
    Task.last_two_task ⟨ds.map Key.Char⟩ ≠ some ['d', 'd'] := by
  unfold Task.last_two_task
  dsimp only
  rw [← List.map_reverse]
  rcases hrev : ds.reverse with _ | ⟨b, _ | ⟨a, rest⟩⟩
  · exact fun h => Option.noConfusion h
  · exact fun h => Option.noConfusion h
  · intro hcon
    have hb : b.isDigit = true :=
      hds b (List.mem_reverse.mp (by rw [hrev]; exact List.mem_cons_self b _))
    have hbd : b = 'd' := by
      have h1 : ([a, b] : List Char) = ['d', 'd'] := Option.some.inj hcon
      exact (List.cons.inj (List.cons.inj h1).2).1
    rw [hbd] at hb
    exact absurd hb (by decide)

/-- The parsed count of an all-digit-then-movement task is the decimal
value of its digits. -/
theorem task_digits_movement_num (ds : List Char) (p : Char) (k : Key)
    (hp : p.isDigit = true) (hds : ∀ c ∈ ds, c.isDigit = true)
    (hk : k ∈ Task.MOVEMENT) (hval : decVal (p :: ds) < 2 ^ 64) :
    Task.num ⟨(p :: ds).map Key.Char ++ [k]⟩ = some (decVal (p :: ds)) := by
  have hcs : Task.charsOf ⟨(p :: ds).map Key.Char ++ [k]⟩ =
      (p :: ds) ++ Task.charsOf ⟨[k]⟩ := by
    rw [charsOf_append, charsOf_map_char]
  have hkf : (Task.charsOf ⟨[k]⟩).filter Char.isDigit = [] := by
    fin_cases hk <;> decide
  have hfil : ((p :: ds) ++ Task.charsOf ⟨[k]⟩).filter Char.isDigit = p :: ds := by
    rw [List.filter_append, hkf, List.append_nil, List.filter_eq_self.mpr]
    intro a ha
    rcases List.mem_cons.mp ha with h | h
    · exact h ▸ hp
    · exact hds a h
  unfold Task.num
  rw [task_digits_push_has_num p ds k hp, if_pos rfl]
  dsimp only
  rw [hcs, hfil]
  show (if decVal (p :: ds) < 2 ^ 64 then some (decVal (p :: ds)) else none) = _
  rw [if_pos hval]

/-- The accumulator takes any digit key — a leading zero only when a
prefix is already pending: it is pushed and the task is executed. -/
theorem pre_handle_digit (f : Nat) (e : Editor) (d : Char) (hd : d.isDigit = true)
    (h0 : d = '0' → e.task.has_num = true) :
    pre_handle_normal (f + 1) e (Key.Char d) =
      match try_perform_task f { e with task := e.task.push (Key.Char d) } with
      | none => none
      | some e' => some (e', true) := by
  unfold pre_handle_normal
  dsimp only
  rw [if_pos (isDigit_range d hd)]
  by_cases hd0 : d = '0'
  · rw [if_pos hd0, h0 hd0, if_pos rfl]
  · rw [if_neg hd0, if_pos rfl]

/-- A task neither movement-completed nor ending in "dd" just lowers the
replay guard. -/
theorem try_perform_noop (f : Nat) (e : Editor)
    (hmov : e.task.is_movement = false)
    (hdd : e.task.last_two_task ≠ some ['d', 'd']) :
    try_perform_task (f + 1) e = some { e with processing_task := false } := by
  unfold try_perform_task
  dsimp only
  rw [hmov, if_neg hdd]
  rfl

/-- One digit keystroke in Normal mode appends the digit to the
accumulator and changes nothing else (side conditions: a leading zero
needs a pending prefix, and the pushed accumulator completes nothing). -/
theorem handle_normal_digit_step (f : Nat) (e : Editor) (d : Char)
    (hd : d.isDigit = true) (h0 : d = '0' → e.task.has_num = true)
    (hflag : e.processing_task = false)
    (hmov : (e.task.push (Key.Char d)).is_movement = false)
    (hdd : (e.task.push (Key.Char d)).last_two_task ≠ some ['d', 'd']) :
    handle_normal (f + 3) e (Key.Char d) =
      some ({ e with task := e.task.push (Key.Char d), processing_task := false },
        Mode.Normal) := by
  show handle_normal (f + 2 + 1) e (Key.Char d) = _
  unfold handle_normal
  rw [if_pos hflag]
  rw [pre_handle_digit (f + 1) e d hd h0]
  rw [try_perform_noop f { e with task := e.task.push (Key.Char d) } hmov hdd]

/-- Feeding further digits onto a pending all-digit accumulator appends
them one at a time, each keystroke answering Normal. -/
theorem feed_digits : ∀ (ds : List Char), (∀ c ∈ ds, c.isDigit = true) →
    ∀ (f : Nat) (e : Editor) (p : Char) (pfx : List Char),
      p.isDigit = true → (∀ c ∈ pfx, c.isDigit = true) →
      e.task = ⟨(p :: pfx).map Key.Char⟩ → e.processing_task = false → 3 ≤ f →
      feedNormal f e (ds.map Key.Char) =
        some { e with
          task := ⟨((p :: pfx) ++ ds).map Key.Char⟩
          processing_task := false } := by
  intro ds
  induction ds with
  | nil =>
    intro _ f e p pfx _ _ ht hflag _
    show some e = _
    rw [List.append_nil, ← ht, ← hflag]
  | cons d ds ih =>
    intro hds f e p pfx hp hpfx ht hflag hf
    obtain ⟨g, rfl⟩ : ∃ g, f = g + 3 := ⟨f - 3, by omega⟩
    have hd : d.isDigit = true := hds d (List.mem_cons_self d ds)
    have hall : ∀ c ∈ (p :: pfx) ++ [d], c.isDigit = true := by
      intro c hc
      rcases List.mem_append.mp hc with h | h
      · rcases List.mem_cons.mp h with h | h
        · exact h ▸ hp
        · exact hpfx c h
      · rw [List.mem_singleton.mp h]
        exact hd
    have hstep := handle_normal_digit_step g e d hd
      (fun _ => by
        rw [ht]
        exact task_digits_has_num p pfx hp)
      hflag
      (by rw [ht]; exact task_digit_push_not_movement ((p :: pfx).map Key.Char) d hd)
      (by
        rw [ht]
        have h2 := last_two_digits_ne_dd ((p :: pfx) ++ [d]) hall
        rw [List.map_append] at h2
        exact h2)
    show feedNormal (g + 3) e (Key.Char d :: ds.map Key.Char) = _
    unfold feedNormal
    rw [hstep]
    dsimp only
    have hih := ih (fun c hc => hds c (List.mem_cons_of_mem d hc)) (g + 3)
      { e with task := e.task.push (Key.Char d), processing_task := false }
      p (pfx ++ [d]) hp
      (fun c hc => by
        rcases List.mem_append.mp hc with h | h
        · exact hpfx c h
        · rw [List.mem_singleton.mp h]
          exact hd)
      (by
        show e.task.push (Key.Char d) = _
        rw [ht]
        show Task.mk ((p :: pfx).map Key.Char ++ [Key.Char d]) = _
        rw [show (p :: (pfx ++ [d])).map Key.Char =
          Key.Char p :: (pfx.map Key.Char ++ [Key.Char d]) by
            rw [List.map_cons, List.map_append]
            rfl]
        rfl)
      rfl (by omega)
    rw [hih]
    have hl : (p :: (pfx ++ [d])) ++ ds = (p :: pfx) ++ d :: ds := by
      simp
    rw [hl]

/-- Feeding a MOVEMENT key to a pending all-digit accumulator pushes it,
recognizes a movement-completed task, replays the key `num()`-many times
through `handle_normal` under the raised guard, and clears the
accumulator. -/
theorem handle_normal_count_movement (g : Nat) (e : Editor) (p : Char)
    (ds : List Char) (k : Key) (hk : k ∈ Task.MOVEMENT) (hp : p.isDigit = true)
    (hds : ∀ c ∈ ds, c.isDigit = true) (hval : decVal (p :: ds) < 2 ^ 64)
    (ht : e.task = ⟨(p :: ds).map Key.Char⟩) (hflag : e.processing_task = false) :
    handle_normal (g + 3) e k =
      match replayN g (decVal (p :: ds))
          { e with
            task := ⟨(p :: ds).map Key.Char ++ [k]⟩
            processing_task := true } k with
      | none => none
      | some e' => some ({ e' with task := ⟨[]⟩, processing_task := false },
          Mode.Normal) := by
  show handle_normal (g + 2 + 1) e k = _
  unfold handle_normal
  rw [if_pos hflag]
  rw [pre_handle_movement (g + 1) e k hk (by rw [ht]; exact task_digits_has_num p ds hp)]
  have hpush : e.task.push k = ⟨(p :: ds).map Key.Char ++ [k]⟩ := by
    rw [ht]
    rfl
  rw [hpush]
  rw [try_perform_task_movement g
    { e with task := ⟨(p :: ds).map Key.Char ++ [k]⟩ } k (decVal (p :: ds))
    (task_movement_push_is_movement ((p :: ds).map Key.Char) k hk)
    (task_digits_push_has_num p ds k hp)
    (task_digits_movement_num ds p k hp hds hk hval)
    (task_push_last ((p :: ds).map Key.Char) k)]
  have hcol : ({ { e with task := ⟨(p :: ds).map Key.Char ++ [k]⟩ } with
      processing_task := true } : Editor) =
      { e with
        task := ⟨(p :: ds).map Key.Char ++ [k]⟩
        processing_task := true } := rfl
  rw [hcol]
  rcases hrep : replayN g (decVal (p :: ds))
      { e with
        task := ⟨(p :: ds).map Key.Char ++ [k]⟩
        processing_task := true } k with _ | e'
  · rfl
  · rfl

/-- C4, corrected: the count-prefixed replay mechanism applies to
movement-completed tasks but NOT to the compound command dd.  First the
spec's concrete example: keys `2 j` on a 3-line document with the cursor
on line 1 move `cur_line` to 3, in Normal mode, with the accumulator
cleared.  Second, in general, for an arbitrary multi-digit count
`p :: ds` (leading digit nonzero, value inside `usize`) and ANY key `k`
of the MOVEMENT table: feeding the digits one at a time stores them in
the accumulator with every keystroke answering Normal, and feeding `k`
then replays `k` exactly `decVal (p :: ds)` times through `handle_normal`
(the `replayN` loop) under the raised guard, clearing the accumulator and
lowering the guard afterwards.  Third, for the total motion keys the
replay closes to the `N`-fold iterate of the single-key motion.  Fourth,
the uncounted path performs exactly one such motion — so the counted run
is the `N`-fold replay of the uncounted handler.  The claim's universal
reading is false for count-prefixed compound commands: see the `2 d d`
counterexample. -/
theorem C4_count_prefix_replay :
    ((handle_normal 20 (mkEditor (Text.mk [['a'], ['b'], ['c']])) (Key.Char '2')).bind
        (fun p => (handle_normal 20 p.1 (Key.Char 'j')).map
          (fun q => (q.1.cur_line, q.1.task, q.2))) =
      some (3, ⟨[]⟩, Mode.Normal)) ∧
    (∀ (f : Nat) (e : Editor) (p : Char) (ds : List Char) (k : Key),
      k ∈ Task.MOVEMENT → p.isDigit = true → p ≠ '0' →
      (∀ c ∈ ds, c.isDigit = true) → decVal (p :: ds) < 2 ^ 64 →
      e.task = ⟨[]⟩ → e.processing_task = false → 3 ≤ f →
      feedNormal f e ((p :: ds).map Key.Char) =
        some { e with task := ⟨(p :: ds).map Key.Char⟩, processing_task := false } ∧
      ∀ (g : Nat),
        handle_normal (g + 3)
            { e with task := ⟨(p :: ds).map Key.Char⟩, processing_task := false } k =
          match replayN g (decVal (p :: ds))
              { e with
                task := ⟨(p :: ds).map Key.Char ++ [k]⟩
                processing_task := true } k with
          | none => none
          | some e' => some ({ e' with task := ⟨[]⟩, processing_task := false },
              Mode.Normal)) ∧
    (∀ (g : Nat) (e : Editor) (p : Char) (ds : List Char) (k : Key),
      k ∈ pureMotionKeys → p.isDigit = true →
      (∀ c ∈ ds, c.isDigit = true) → decVal (p :: ds) < 2 ^ 64 →
      e.task = ⟨[]⟩ → e.processing_task = false → decVal (p :: ds) + 2 ≤ g →
      handle_normal (g + 3)
          { e with task := ⟨(p :: ds).map Key.Char⟩, processing_task := false } k =
        some ((applyMotion k)^[decVal (p :: ds)] e, Mode.Normal) ∧
      ((applyMotion k)^[decVal (p :: ds)] e).task = ⟨[]⟩) ∧
    (∀ (f : Nat) (e : Editor) (k : Key), k ∈ pureMotionKeys → e.task = ⟨[]⟩ →
      e.processing_task = false → 3 ≤ f →
      handle_normal f e k = some (applyMotion k e, Mode.Normal)) := by
  refine ⟨by decide, ?_, ?_, ?_⟩
  · intro f e p ds k hk hp hd0 hds hval ht hflag hf
    obtain ⟨g, rfl⟩ : ∃ g, f = g + 3 := ⟨f - 3, by omega⟩
    constructor
    · show feedNormal (g + 3) e (Key.Char p :: ds.map Key.Char) = _
      unfold feedNormal
      rw [handle_normal_digit_step g e p hp (fun h => absurd h hd0) hflag
        (by rw [ht]; exact task_digit_push_not_movement [] p hp)
        (by
          rw [ht]
          exact last_two_digits_ne_dd [p]
            (fun c hc => by rw [List.mem_singleton.mp hc]; exact hp))]
      dsimp only
      rw [feed_digits ds hds (g + 3)
        { e with task := e.task.push (Key.Char p), processing_task := false }
        p [] hp (fun c hc => absurd hc (List.not_mem_nil c))
        (by show e.task.push (Key.Char p) = _; rw [ht]; rfl) rfl (by omega)]
      rfl
    · intro g'
      exact handle_normal_count_movement g'
        { e with task := ⟨(p :: ds).map Key.Char⟩, processing_task := false }
        p ds k hk hp hds hval rfl rfl
  · intro g e p ds k hk hp hds hval ht hflag hg
    have h5 : ((applyMotion k)^[decVal (p :: ds)] e).task = ⟨[]⟩ :=
      ((applyMotion_iterate_fields k hk _ e).1).trans ht
    refine ⟨?_, h5⟩
    rw [handle_normal_count_movement g
      { e with task := ⟨(p :: ds).map Key.Char⟩, processing_task := false }
      p ds k (pureMotion_mem_MOVEMENT k hk) hp hds hval rfl rfl]
    have hcol : ({ { e with task := ⟨(p :: ds).map Key.Char⟩, processing_task := false }
        with
        task := ⟨(p :: ds).map Key.Char ++ [k]⟩
        processing_task := true } : Editor) =
        { e with
          task := ⟨(p :: ds).map Key.Char ++ [k]⟩
          processing_task := true } := rfl
    rw [hcol]
    rw [replayN_pure k hk (decVal (p :: ds)) g _ rfl (by omega)]
    rw [applyMotion_iterate_update k hk (decVal (p :: ds)) e
      ⟨(p :: ds).map Key.Char ++ [k]⟩ true]
    dsimp only
    have h6 : ((applyMotion k)^[decVal (p :: ds)] e).processing_task = false :=
      ((applyMotion_iterate_fields k hk _ e).2).trans hflag
    rw [← h5, ← h6]
  · intro f e k hk ht hflag hf
    obtain ⟨g, rfl⟩ : ∃ g, f = g + 3 := ⟨f - 3, by omega⟩
    obtain ⟨e1, e2, e3, e4, e5, e6, e7, e8, e9, e10, e11, e12, e13⟩ := e
    dsimp only at ht hflag
    subst ht
    subst hflag
    fin_cases hk <;> rfl

/-- C4 counterexample: keys `2 d d` on the 3-line document complete an
accumulated task whose parsed numeric prefix `num()` is 2, yet the dd
branch of `try_perform_task` runs `delete_cur_line` exactly once,
ignoring the prefix (the source's own FIXME "considering 2dd"): TWO lines
survive, where replaying the completed line-deleting command `num()`
times would leave one.  The triggering command is therefore not replayed
`N` times. -/
theorem C4_counterexample :
    (handle_normal 20 (mkEditor (Text.mk [['a'], ['b'], ['c']])) (Key.Char '2') =
      some ({ mkEditor (Text.mk [['a'], ['b'], ['c']]) with
        task := ⟨[Key.Char '2']⟩ }, Mode.Normal)) ∧
    (handle_normal 20 { mkEditor (Text.mk [['a'], ['b'], ['c']]) with
        task := ⟨[Key.Char '2']⟩ } (Key.Char 'd') =
      some ({ mkEditor (Text.mk [['a'], ['b'], ['c']]) with
        task := ⟨[Key.Char '2', Key.Char 'd']⟩ }, Mode.Normal)) ∧
    ((handle_normal 20 { mkEditor (Text.mk [['a'], ['b'], ['c']]) with
        task := ⟨[Key.Char '2', Key.Char 'd']⟩ } (Key.Char 'd')).map
        (fun r => (r.1.text, r.1.task, r.2)) =
      some (Text.mk [['b'], ['c']], ⟨[]⟩, Mode.Normal)) ∧
    Task.num ⟨[Key.Char '2', Key.Char 'd', Key.Char 'd']⟩ = some 2 ∧
    (Text.mk [['b'], ['c']]).len = 2 := by
  refine ⟨by decide, by decide, by decide, by decide, by decide⟩

/-- Witness for C4: the general replay theorem instantiated at the 3-line
document, digit string "2", motion `j`. -/
theorem C4_witness :
    feedNormal 3 (mkEditor (Text.mk [['a'], ['b'], ['c']])) [Key.Char '2'] =
      some { mkEditor (Text.mk [['a'], ['b'], ['c']]) with
        task := ⟨[Key.Char '2']⟩, processing_task := false } ∧
    handle_normal 7 { mkEditor (Text.mk [['a'], ['b'], ['c']]) with
        task := ⟨[Key.Char '2']⟩, processing_task := false } (Key.Char 'j') =
      some ((applyMotion (Key.Char 'j'))^[2]
        (mkEditor (Text.mk [['a'], ['b'], ['c']])), Mode.Normal) ∧
    ((applyMotion (Key.Char 'j'))^[2]
      (mkEditor (Text.mk [['a'], ['b'], ['c']]))).cur_line = 3 :=
  ⟨(C4_count_prefix_replay.2.1 3 (mkEditor (Text.mk [['a'], ['b'], ['c']])) '2' []
      (Key.Char 'j') (by decide) (by decide) (by decide)
      (fun c hc => absurd hc (List.not_mem_nil c)) (by decide) rfl rfl
      (by decide)).1,
   (C4_count_prefix_replay.2.2.1 4 (mkEditor (Text.mk [['a'], ['b'], ['c']])) '2' []
      (Key.Char 'j') (by decide) (by decide)
      (fun c hc => absurd hc (List.not_mem_nil c)) (by decide) rfl rfl
      (by decide)).1,
   by decide⟩

/-- Document-order comparison of two editor states (line-major, then
column). -/
def docPosLe (e e' : Editor) : Prop :=
  e.cur_line < e'.cur_line ∨ (e.cur_line = e'.cur_line ∧ e.cur_pos.x ≤ e'.cur_pos.x)

/-- Termination (under some fuel) of the `w` motion from a given state. -/
def wTerminates (e : Editor) : Prop :=
  ∃ f, (Editor.forward_to_start_of_next_word f e).isSome = true

/-- Document order is reflexive. -/
theorem docPosLe_refl (e : Editor) : docPosLe e e := Or.inr ⟨rfl, le_refl _⟩

/-- Document order is transitive. -/
theorem docPosLe_trans {a b c : Editor} (h1 : docPosLe a b) (h2 : docPosLe b c) :
    docPosLe a c := by
  unfold docPosLe at *
  omega

/-- One forward character step never decreases the document position. -/
theorem forward_to_next_char_docLe (e : Editor) :
    docPosLe e e.forward_to_next_char.1 := by
  unfold Editor.forward_to_next_char
  dsimp only
  split_ifs <;> simp [docPosLe]

/-- The word-skipping loop never decreases the document position. -/
theorem alphaFwdLoop_docLe :
    ∀ (f : Nat) (e : Editor) (r : Editor × Bool), Editor.alphaFwdLoop f e = some r →
      docPosLe e r.1 := by
  intro f
  induction f with
  | zero => intro e r h; exact absurd h (by simp [Editor.alphaFwdLoop])
  | succ f ih =>
    intro e r h
    unfold Editor.alphaFwdLoop at h
    split_ifs at h with ha
    · rcases hfe : e.forward_to_next_char with ⟨e', moved⟩
      rw [hfe] at h
      dsimp only at h
      have hstep : docPosLe e e' := by
        have := forward_to_next_char_docLe e
        rwa [hfe] at this
      split_ifs at h with h1 h2
      · simp only [Option.some.injEq] at h
        subst h
        exact hstep
      · simp only [Option.some.injEq] at h
        subst h
        exact hstep
      · exact docPosLe_trans hstep (ih e' r h)
    · simp only [Option.some.injEq] at h
      subst h
      exact docPosLe_refl e

/-- The scan loop never decreases the document position. -/
theorem scanFwdLoop_docLe :
    ∀ (f : Nat) (e : Editor) (e' : Editor), Editor.scanFwdLoop f e = some e' →
      docPosLe e e' := by
  intro f
  induction f with
  | zero => intro e e' h; exact absurd h (by simp [Editor.scanFwdLoop])
  | succ f ih =>
    intro e e' h
    unfold Editor.scanFwdLoop at h
    split_ifs at h with ha
    · simp only [Option.some.injEq] at h
      subst h
      exact docPosLe_refl e
    · exact docPosLe_trans (forward_to_next_char_docLe e) (ih _ e' h)

/-- C6 (amended): whenever the `w` motion returns (whatever the fuel), the
document position has not decreased; and at the very end of the document
ON an alphanumeric character `w` is a no-op.  (When the cursor character
is not alphanumeric and no alphanumeric character follows, the scan loop
of `w` never returns — see the counterexample.) -/
theorem C6_w_monotone_noop :
    (∀ (f : Nat) (e e' : Editor), Editor.forward_to_start_of_next_word f e = some e' →
      docPosLe e e') ∧
    (∀ (f : Nat) (e : Editor), 1 ≤ f → e.cur_line = e.text_length →
      e.cur_pos.x = e.len_of_cur_line → Editor.is_alphabet e.cur_char = true →
      Editor.forward_to_start_of_next_word f e = some e) := by
  constructor
  · intro f e e' h
    unfold Editor.forward_to_start_of_next_word at h
    rcases hloop : Editor.alphaFwdLoop f e with _ | ⟨e₁, early⟩
    · rw [hloop] at h
      exact absurd h (by simp)
    · rw [hloop] at h
      dsimp only at h
      have h1 : docPosLe e e₁ := alphaFwdLoop_docLe f e (e₁, early) hloop
      split_ifs at h
      · simp only [Option.some.injEq] at h
        subst h
        exact h1
      · exact docPosLe_trans h1 (scanFwdLoop_docLe f e₁ e' h)
  · intro f e hf hline hx ha
    obtain ⟨g, rfl⟩ : ∃ g, f = g + 1 := ⟨f - 1, by omega⟩
    have hfwd : e.forward_to_next_char = (e, false) := by
      unfold Editor.forward_to_next_char
      rw [if_pos hx, if_neg (by omega)]
    unfold Editor.forward_to_start_of_next_word
    unfold Editor.alphaFwdLoop
    rw [if_pos ha, hfwd]
    rfl

/-- C6 counterexample: on the one-line document consisting of a single
blank, the cursor sits at the end of the document on a non-alphanumeric
character, and the `w` motion never terminates (its scan loop ignores the
failure flag of `forward_to_next_char`), for every fuel — so `w` is
neither total nor a no-op there. -/
theorem C6_counterexample : ¬ wTerminates (mkEditor (Text.mk [[' ']])) := by
  rintro ⟨f, hf⟩
  have key : ∀ g, Editor.scanFwdLoop g (mkEditor (Text.mk [[' ']])) = none := by
    intro g
    induction g with
    | zero => rfl
    | succ g ih =>
      unfold Editor.scanFwdLoop
      rw [if_neg (by decide)]
      have hstep : (mkEditor (Text.mk [[' ']])).forward_to_next_char.1 =
          mkEditor (Text.mk [[' ']]) := by decide
      rw [hstep]
      exact ih
  cases f with
  | zero => simp [Editor.forward_to_start_of_next_word, Editor.alphaFwdLoop] at hf
  | succ f =>
    unfold Editor.forward_to_start_of_next_word at hf
    have h1 : Editor.alphaFwdLoop (f + 1) (mkEditor (Text.mk [[' ']])) =
        some (mkEditor (Text.mk [[' ']]), false) := by
      unfold Editor.alphaFwdLoop
      rw [if_neg (by decide)]
    rw [h1] at hf
    dsimp only at hf
    rw [key (f + 1)] at hf
    simp at hf

/-- Witness for C6 at a one-line one-character document whose cursor sits
at the end of the document on the letter `a`. -/
theorem C6_witness :
    Editor.forward_to_start_of_next_word 5 (mkEditor (Text.mk [['a']])) =
      some (mkEditor (Text.mk [['a']])) ∧
    docPosLe (mkEditor (Text.mk [['a']])) (mkEditor (Text.mk [['a']])) := by
  have h := C6_w_monotone_noop.2 5 (mkEditor (Text.mk [['a']])) (by omega) (by decide)
    (by decide) (by decide)
  exact ⟨h, C6_w_monotone_noop.1 5 _ _ h⟩

/-- Indexing an append right at the left part's length hits the cons
head. -/
theorem List.getElem?_append_len_cons {α : Type} :
    ∀ (A : List α) (b : α) (C : List α), (A ++ b :: C)[A.length]? = some b
  | [], _, _ => by simp
  | a :: A, b, C => by
    simpa using List.getElem?_append_len_cons A b C

/-- Setting an append right at the left part's length replaces the cons
head. -/
theorem List.set_append_len_cons {α : Type} :
    ∀ (A : List α) (b d : α) (C : List α), (A ++ b :: C).set A.length d = A ++ d :: C
  | [], _, _, _ => rfl
  | a :: A, b, d, C => by
    simp [List.set_append_len_cons A b d C]

/-- Splitting a list around a known element reassembles it. -/
theorem List.take_cons_drop_of_getElem {α : Type} :
    ∀ (l : List α) (i : Nat) (a : α), l[i]? = some a →
      l.take i ++ a :: l.drop (i + 1) = l
  | [], i, a, h => by simp at h
  | b :: l, 0, a, h => by simp_all
  | b :: l, i + 1, a, h => by
    simp only [List.getElem?_cons_succ] at h
    simp [List.take_cons_drop_of_getElem l i a h]

/-- Feeding a newline-free chunk to the re-insertion splices it into the
current line and advances the column past it. -/
theorem reinsert_chars :
    ∀ (cs : Line), (∀ c ∈ cs, c ≠ '\n') →
    ∀ (t : Text) (x y : Nat) (L rest : Line),
      t.lines[x]? = some L → y ≤ L.length →
      reinsert t x y (cs ++ rest) =
        reinsert ⟨t.lines.set x (L.take y ++ cs ++ L.drop y)⟩ x (y + cs.length) rest := by
  intro cs
  induction cs with
  | nil =>
    intro _ t x y L rest hL hy
    rw [List.nil_append]
    have h1 : L.take y ++ [] ++ L.drop y = L := by
      rw [List.append_nil, List.take_append_drop]
    rw [h1, List.set_get_self t.lines x L hL]
    rfl
  | cons c cs ih =>
    intro hnl t x y L rest hL hy
    have hc : c ≠ '\n' := hnl c (List.mem_cons_self c cs)
    have hx : x < t.lines.length := by
      by_contra hcon
      rw [List.getElem?_eq_none (by omega)] at hL
      exact absurd hL (by simp)
    have hw : wrapSub t.lines.length 1 = t.lines.length - 1 := by
      unfold wrapSub
      rw [if_pos (by omega)]
    have hmin : min x (t.lines.length - 1) = x := by omega
    have hins : t.insert_at x y c = some ⟨t.lines.set x (L.take y ++ c :: L.drop y)⟩ := by
      unfold Text.insert_at
      dsimp only
      rw [hw, hmin, hL]
      dsimp only
      rw [min_eq_left hy]
    have hlen : (L.take y).length = y := by
      simp [List.length_take, min_eq_left hy]
    have hstep : reinsert t x y (c :: (cs ++ rest)) =
        reinsert ⟨t.lines.set x (L.take y ++ c :: L.drop y)⟩ x (y + 1) (cs ++ rest) := by
      conv_lhs => unfold reinsert
      rw [if_neg hc, hins]
    show reinsert t x y (c :: (cs ++ rest)) = _
    rw [hstep]
    have hset : (t.lines.set x (L.take y ++ c :: L.drop y))[x]? =
        some (L.take y ++ c :: L.drop y) :=
      List.getElem?_set_eq_of_lt _ (by simpa using hx)
    have hylen : y + 1 ≤ (L.take y ++ c :: L.drop y).length := by
      simp [hlen]
    rw [ih (fun c' hc' => hnl c' (List.mem_cons_of_mem c hc')) _ x (y + 1)
      (L.take y ++ c :: L.drop y) rest hset hylen]
    have hA0 : L.take y ++ c :: L.drop y = (L.take y ++ [c]) ++ L.drop y := by
      simp
    have hA1 : (L.take y ++ c :: L.drop y).take (y + 1) = L.take y ++ [c] := by
      rw [hA0]
      exact List.take_left' (by simp [hlen])
    have hA2 : (L.take y ++ c :: L.drop y).drop (y + 1) = L.drop y := by
      rw [hA0]
      exact List.drop_left' (by simp [hlen])
    rw [List.set_set, hA1, hA2]
    have hA3 : (L.take y ++ [c]) ++ cs ++ L.drop y = L.take y ++ (c :: cs) ++ L.drop y := by
      simp
    have hA4 : y + 1 + cs.length = y + (c :: cs).length := by
      simp
      omega
    rw [hA3, hA4]

/-- Re-inserting a newline-free string splices it into the line at the
insertion point. -/
theorem reinsert_no_nl (cs : Line) (hnl : ∀ c ∈ cs, c ≠ '\n') (t : Text) (x y : Nat)
    (L : Line) (hL : t.lines[x]? = some L) (hy : y ≤ L.length) :
    reinsert t x y cs = some ⟨t.lines.set x (L.take y ++ cs ++ L.drop y)⟩ := by
  have h := reinsert_chars cs hnl t x y L [] hL hy
  rw [List.append_nil] at h
  rw [h]
  rfl

/-- Computation of `delete_range` on an in-range single-line span that
leaves the surviving line non-empty. -/
theorem delete_range_single (t : Text) (sx sy ey : Nat) (L : Line)
    (hL : t.lines[sx]? = some L) (hse : sy ≤ ey) (hey : ey + 1 ≤ L.length)
    (hne : ¬((L.take sy).length = 0 ∧ (L.drop (ey + 1)).length = 0)) :
    t.delete_range ⟨sx, sy⟩ ⟨sx, ey⟩ =
      some ((L.take (ey + 1)).drop sy,
        ⟨t.lines.set sx (L.take sy ++ L.drop (ey + 1))⟩) := by
  unfold Text.delete_range
  dsimp only
  rw [if_pos rfl, if_pos hse, hL]
  dsimp only
  rw [if_pos hey, if_neg hne]

/-- Computation of `delete_range` on an in-range two-line span (no
interior lines) that leaves the merged line non-empty. -/
theorem delete_range_two_lines (t : Text) (sx sy ey : Nat) (L1 L2 : Line)
    (h1 : t.lines[sx]? = some L1) (h2 : t.lines[sx + 1]? = some L2)
    (hsy : sy ≤ L1.length) (hey : ey + 1 ≤ L2.length)
    (hne : ¬((L1.take sy).length = 0 ∧ (L2.drop (ey + 1)).length = 0)) :
    t.delete_range ⟨sx, sy⟩ ⟨sx + 1, ey⟩ =
      some (L1.drop sy ++ '\n' :: L2.take (ey + 1),
        ⟨(t.lines.take (sx + 1) ++ t.lines.drop (sx + 2)).set sx
          (L1.take sy ++ L2.drop (ey + 1))⟩) := by
  have hlen : sx + 2 ≤ t.lines.length := by
    by_contra hcon
    rw [List.getElem?_eq_none (by omega)] at h2
    exact absurd h2 (by simp)
  have hw : wrapSub t.lines.length 1 = t.lines.length - 1 := by
    unfold wrapSub
    rw [if_pos (by omega)]
  unfold Text.delete_range
  dsimp only
  rw [if_neg (by omega), if_pos (by omega)]
  have hint : sx + 1 - sx - 1 = 0 := by omega
  rw [hint]
  dsimp only [Text.delInterior]
  rw [h1, h2]
  dsimp only
  rw [if_pos ⟨hsy, hey⟩]
  have hdel : t.delete_line_at (sx + 1) =
      some (L2, ⟨t.lines.take (sx + 1) ++ t.lines.drop (sx + 2)⟩) := by
    unfold Text.delete_line_at
    dsimp only
    rw [hw, min_eq_left (by omega), h2]
  rw [hdel]
  dsimp only
  rw [if_neg hne, List.nil_append]

/-- C2 (amended): `delete_range` followed by re-inserting the returned
text at the start coordinate reproduces the original buffer content for
(i) single-line spans whose deletion leaves the surviving line non-empty,
and (ii) two-line spans (no interior lines) whose merged remainder is
non-empty.  (Spans with interior lines come back with those lines
reversed, and whole-line spans trigger the line-removal quirk; both break
the round trip — see the counterexample.) -/
theorem C2_delete_range_round_trip :
    (∀ (t : Text) (sx sy ey : Nat) (L : Line),
      t.lines[sx]? = some L → sy ≤ ey → ey + 1 ≤ L.length → (∀ c ∈ L, c ≠ '\n') →
      ¬((L.take sy).length = 0 ∧ (L.drop (ey + 1)).length = 0) →
      ∃ del t', t.delete_range ⟨sx, sy⟩ ⟨sx, ey⟩ = some (del, t') ∧
        reinsert t' sx sy del = some t) ∧
    (∀ (t : Text) (sx sy ey : Nat) (L1 L2 : Line),
      t.lines[sx]? = some L1 → t.lines[sx + 1]? = some L2 →
      sy ≤ L1.length → ey + 1 ≤ L2.length →
      (∀ c ∈ L1, c ≠ '\n') → (∀ c ∈ L2, c ≠ '\n') →
      ¬((L1.take sy).length = 0 ∧ (L2.drop (ey + 1)).length = 0) →
      ∃ del t', t.delete_range ⟨sx, sy⟩ ⟨sx + 1, ey⟩ = some (del, t') ∧
        reinsert t' sx sy del = some t) := by
  constructor
  · intro t sx sy ey L hL hse hey hnl hne
    refine ⟨_, _, delete_range_single t sx sy ey L hL hse hey hne, ?_⟩
    have hxlt : sx < t.lines.length := by
      by_contra hcon
      rw [List.getElem?_eq_none (by omega)] at hL
      exact absurd hL (by simp)
    have hsyL : sy ≤ L.length := by omega
    have hlen_take : (L.take sy).length = sy := by
      simp [List.length_take, min_eq_left hsyL]
    have hF : (t.lines.set sx (L.take sy ++ L.drop (ey + 1)))[sx]? =
        some (L.take sy ++ L.drop (ey + 1)) :=
      List.getElem?_set_eq_of_lt _ (by simpa using hxlt)
    have hnl' : ∀ c ∈ (L.take (ey + 1)).drop sy, c ≠ '\n' := fun c hc =>
      hnl c (List.take_subset _ _ (List.drop_subset _ _ hc))
    rw [reinsert_no_nl _ hnl' _ sx sy _ hF
      (by rw [List.length_append, hlen_take]; omega)]
    rw [List.set_set]
    have e1 : (L.take sy ++ L.drop (ey + 1)).take sy = L.take sy :=
      List.take_left' hlen_take
    have e2 : (L.take sy ++ L.drop (ey + 1)).drop sy = L.drop (ey + 1) :=
      List.drop_left' hlen_take
    rw [e1, e2]
    have e3 : L.take sy ++ (L.take (ey + 1)).drop sy ++ L.drop (ey + 1) = L := by
      have h4 : L.take sy = (L.take (ey + 1)).take sy := by
        rw [List.take_take, min_eq_left (by omega)]
      rw [h4, List.take_append_drop, List.take_append_drop]
    rw [e3, List.set_get_self t.lines sx L hL]
  · intro t sx sy ey L1 L2 h1 h2 hsy hey hnl1 hnl2 hne
    refine ⟨_, _, delete_range_two_lines t sx sy ey L1 L2 h1 h2 hsy hey hne, ?_⟩
    have hlen : sx + 2 ≤ t.lines.length := by
      by_contra hcon
      rw [List.getElem?_eq_none (by omega)] at h2
      exact absurd h2 (by simp)
    have hBsx : (t.lines.take (sx + 1) ++ t.lines.drop (sx + 2))[sx]? = some L1 := by
      rw [List.getElem?_append, if_pos (by simp [List.length_take]; omega)]
      have ht : (t.lines.take (sx + 1))[sx]? = t.lines[sx]? := by
        simp [List.getElem?_take, Nat.lt_succ_self]
      rw [ht, h1]
    have hBlen : (t.lines.take (sx + 1) ++ t.lines.drop (sx + 2)).length =
        t.lines.length - 1 := by
      simp [List.length_take, List.length_drop]
      omega
    have hlen_take : (L1.take sy).length = sy := by
      simp [List.length_take, min_eq_left hsy]
    have hF : ((t.lines.take (sx + 1) ++ t.lines.drop (sx + 2)).set sx
        (L1.take sy ++ L2.drop (ey + 1)))[sx]? =
        some (L1.take sy ++ L2.drop (ey + 1)) :=
      List.getElem?_set_eq_of_lt _ (by rw [hBlen]; omega)
    have hnl1' : ∀ c ∈ L1.drop sy, c ≠ '\n' := fun c hc =>
      hnl1 c (List.drop_subset _ _ hc)
    rw [reinsert_chars (L1.drop sy) hnl1' _ sx sy (L1.take sy ++ L2.drop (ey + 1))
      ('\n' :: L2.take (ey + 1)) hF (by rw [List.length_append, hlen_take]; omega)]
    rw [List.set_set]
    have e1 : (L1.take sy ++ L2.drop (ey + 1)).take sy = L1.take sy :=
      List.take_left' hlen_take
    have e2 : (L1.take sy ++ L2.drop (ey + 1)).drop sy = L2.drop (ey + 1) :=
      List.drop_left' hlen_take
    rw [e1, e2]
    have e3 : L1.take sy ++ L1.drop sy ++ L2.drop (ey + 1) = L1 ++ L2.drop (ey + 1) := by
      rw [List.take_append_drop]
    rw [e3]
    have e4 : sy + (L1.drop sy).length = L1.length := by
      simp [List.length_drop]
      omega
    rw [e4]
    have hstep : reinsert
        ⟨(t.lines.take (sx + 1) ++ t.lines.drop (sx + 2)).set sx
          (L1 ++ L2.drop (ey + 1))⟩ sx L1.length ('\n' :: L2.take (ey + 1)) =
        (match (⟨(t.lines.take (sx + 1) ++ t.lines.drop (sx + 2)).set sx
            (L1 ++ L2.drop (ey + 1))⟩ : Text).new_line_at sx L1.length with
          | none => none
          | some t' => reinsert t' (sx + 1) 0 (L2.take (ey + 1))) := by
      conv_lhs => unfold reinsert
      rw [if_pos rfl]
    rw [hstep]
    have hw2 : wrapSub (t.lines.length - 1) 1 = t.lines.length - 2 := by
      unfold wrapSub
      rw [if_pos (by omega)]
      omega
    have hsetlen : ((t.lines.take (sx + 1) ++ t.lines.drop (sx + 2)).set sx
        (L1 ++ L2.drop (ey + 1))).length = t.lines.length - 1 := by
      rw [List.length_set, hBlen]
    have hget : ((t.lines.take (sx + 1) ++ t.lines.drop (sx + 2)).set sx
        (L1 ++ L2.drop (ey + 1)))[sx]? = some (L1 ++ L2.drop (ey + 1)) :=
      List.getElem?_set_eq_of_lt _ (by rw [hBlen]; omega)
    have hnew : (⟨(t.lines.take (sx + 1) ++ t.lines.drop (sx + 2)).set sx
        (L1 ++ L2.drop (ey + 1))⟩ : Text).new_line_at sx L1.length =
        some ⟨t.lines.take (sx + 1) ++ L2.drop (ey + 1) :: t.lines.drop (sx + 2)⟩ := by
      unfold Text.new_line_at
      dsimp only
      rw [hsetlen, hw2, min_eq_left (by omega), hget]
      dsimp only
      rw [min_eq_left (by simp)]
      have ht1 : (L1 ++ L2.drop (ey + 1)).take L1.length = L1 := List.take_left' rfl
      have ht2 : (L1 ++ L2.drop (ey + 1)).drop L1.length = L2.drop (ey + 1) :=
        List.drop_left' rfl
      rw [ht1, ht2, List.set_set]
      have hBL1 : (t.lines.take (sx + 1) ++ t.lines.drop (sx + 2)).set sx L1 =
          t.lines.take (sx + 1) ++ t.lines.drop (sx + 2) :=
        List.set_get_self _ sx L1 hBsx
      rw [hBL1]
      unfold Text.add_line_before
      dsimp only
      rw [if_neg (by rw [hBlen]; omega)]
      have hTake : (t.lines.take (sx + 1) ++ t.lines.drop (sx + 2)).take (sx + 1) =
          t.lines.take (sx + 1) :=
        List.take_left' (by simp [List.length_take]; omega)
      have hDrop : (t.lines.take (sx + 1) ++ t.lines.drop (sx + 2)).drop (sx + 1) =
          t.lines.drop (sx + 2) :=
        List.drop_left' (by simp [List.length_take]; omega)
      rw [hTake, hDrop]
    rw [hnew]
    dsimp only
    have hidx : (t.lines.take (sx + 1) ++ L2.drop (ey + 1) :: t.lines.drop (sx + 2))[sx + 1]? =
        some (L2.drop (ey + 1)) := by
      have h := List.getElem?_append_len_cons (t.lines.take (sx + 1)) (L2.drop (ey + 1))
        (t.lines.drop (sx + 2))
      rwa [List.length_take, min_eq_left (by omega)] at h
    have hnl2' : ∀ c ∈ L2.take (ey + 1), c ≠ '\n' := fun c hc =>
      hnl2 c (List.take_subset _ _ hc)
    rw [reinsert_no_nl (L2.take (ey + 1)) hnl2' _ (sx + 1) 0 (L2.drop (ey + 1)) hidx
      (by omega)]
    simp only [List.take_zero, List.drop_zero, List.nil_append]
    have hset2 : (t.lines.take (sx + 1) ++ L2.drop (ey + 1) :: t.lines.drop (sx + 2)).set
        (sx + 1) (L2.take (ey + 1) ++ L2.drop (ey + 1)) =
        t.lines.take (sx + 1) ++ (L2.take (ey + 1) ++ L2.drop (ey + 1)) ::
          t.lines.drop (sx + 2) := by
      have h := List.set_append_len_cons (t.lines.take (sx + 1)) (L2.drop (ey + 1))
        (L2.take (ey + 1) ++ L2.drop (ey + 1)) (t.lines.drop (sx + 2))
      rwa [List.length_take, min_eq_left (by omega)] at h
    rw [hset2, List.take_append_drop, List.take_cons_drop_of_getElem t.lines (sx + 1) L2 h2]

/-- C2 counterexample: a three-line span has an interior line; the source
collects interior lines in REVERSE order before the first-line tail, so
re-inserting the returned text at the start coordinate does not
reconstruct the original document. -/
theorem C2_counterexample :
    ((Text.mk [['a', 'b'], ['c', 'd'], ['e', 'f']]).delete_range ⟨0, 1⟩ ⟨2, 0⟩).bind
        (fun r => reinsert r.2 0 1 r.1) =
      some (Text.mk [['a', 'c', 'd'], ['b'], ['e', 'f']]) ∧
    Text.mk [['a', 'c', 'd'], ['b'], ['e', 'f']] ≠
      Text.mk [['a', 'b'], ['c', 'd'], ['e', 'f']] := by decide

/-- Witness for C2: a concrete single-line span and a concrete two-line
span round-trip. -/
theorem C2_witness :
    (∃ del t', (Text.mk [['a', 'b', 'c']]).delete_range ⟨0, 1⟩ ⟨0, 1⟩ = some (del, t') ∧
      reinsert t' 0 1 del = some (Text.mk [['a', 'b', 'c']])) ∧
    (∃ del t', (Text.mk [['a', 'b'], ['c', 'd']]).delete_range ⟨0, 1⟩ ⟨1, 0⟩ =
        some (del, t') ∧
      reinsert t' 0 1 del = some (Text.mk [['a', 'b'], ['c', 'd']])) :=
  ⟨C2_delete_range_round_trip.1 ⟨[['a', 'b', 'c']]⟩ 0 1 1 ['a', 'b', 'c'] (by decide)
      (by decide) (by decide) (by decide) (by decide),
    C2_delete_range_round_trip.2 ⟨[['a', 'b'], ['c', 'd']]⟩ 0 1 0 ['a', 'b'] ['c', 'd']
      (by decide) (by decide) (by decide) (by decide) (by decide) (by decide) (by decide)⟩

/-- Witness for C7 at a concrete two-character line: `x` removes the
character under the cursor and records it in the pushed Delete entry. -/
theorem C7_witness :
    handle_normal 10 (mkEditor (Text.mk [['a', 'b']])) (Key.Char 'x') =
      some ({ mkEditor (Text.mk [['b']]) with action_stack :=
          ⟨[⟨Action.Delete, ⟨1, 1⟩, 1, [Key.Char 'a']⟩], []⟩ }, Mode.Normal) := by
  have h := (C7_x_always_records 8 (mkEditor (Text.mk [['a', 'b']]))
      (some 'a', { mkEditor (Text.mk [['a', 'b']]) with text := Text.mk [['b']] })
      (by decide)).1
  rw [h]
  decide

end Vim
